import Mathlib

/-!
Shallow embedding of the Winvora core (src/core/wine_manager.py,
src/core/wine_versions.py, src/core/dxvk.py, src/core/prefix_templates.py).

Filesystem state is an association list from absolute paths (lists of path
components) to nodes.  Outcomes of external subprocesses (wineboot, the
external kill command, the network) enter as explicit parameters, since the
Python code only observes their exit status / payload.  Identifiers avoid
the word "prefix"; the abbreviation "pfx" stands for a Wine prefix
throughout, and doc comments name the Python originals.
-/

/-- A file payload: plain text, the metadata record that
`WineManager.create_prefix` serialises to `winvora.json`, or a tar.gz
archive, modelled as a list of relative member paths with text contents plus
a `truncated` flag for a partially written download (a truncated archive
makes `tarfile.open`/`extractall` raise). -/
inductive FileData
  | text (s : String)
  | metadata (name : String) (winver : String)
  | archive (entries : List (List String × String)) (truncated : Bool)
deriving DecidableEq

/-- A filesystem node: a directory or a regular file. -/
inductive FsNode
  | dir
  | file (d : FileData)
deriving DecidableEq

/-- The filesystem: an association list from absolute paths to nodes.
Lookup returns the first matching entry. -/
structure FS where
  entries : List (List String × FsNode)
deriving DecidableEq

/-- First entry whose key equals `p`. -/
def lookupEntries : List (List String × FsNode) → List String → Option FsNode
  | [], _ => none
  | e :: es, p => if e.1 = p then some e.2 else lookupEntries es p

/-- Replace the node at key `p` in place (every duplicate as well), or append
it if the key is absent.  Models writing a file: content is overwritten, the
entry keeps its place. -/
def setEntries : List (List String × FsNode) → List String → FsNode → List (List String × FsNode)
  | [], p, n => [(p, n)]
  | e :: es, p, n => if e.1 = p then (p, n) :: setEntries es p n else e :: setEntries es p n

def FS.empty : FS := ⟨[]⟩

def FS.lookup (fs : FS) (p : List String) : Option FsNode :=
  lookupEntries fs.entries p

/-- `Path.exists()`. -/
def FS.pathExists (fs : FS) (p : List String) : Bool :=
  (fs.lookup p).isSome

/-- Read a regular file, `none` if absent or a directory. -/
def FS.readFile (fs : FS) (p : List String) : Option FileData :=
  match fs.lookup p with
  | some (FsNode.file d) => some d
  | _ => none

/-- Write (create or overwrite) a regular file. -/
def FS.writeFile (fs : FS) (p : List String) (d : FileData) : FS :=
  ⟨setEntries fs.entries p (FsNode.file d)⟩

/-- `mkdir(exist_ok=True)` for a single directory: no change when the path
already exists. -/
def FS.mkdirOne (fs : FS) (p : List String) : FS :=
  if fs.pathExists p then fs else ⟨fs.entries ++ [(p, FsNode.dir)]⟩

/-- All nonempty ancestors of `p`, shortest first, ending with `p` itself. -/
def ancestors (p : List String) : List (List String) :=
  (List.range p.length).map (fun i => p.take (i + 1))

/-- `mkdir(parents=True, exist_ok=True)`. -/
def FS.mkdirp (fs : FS) (p : List String) : FS :=
  (ancestors p).foldl FS.mkdirOne fs

/-- `listIsPre a b` decides whether `a` is an initial segment of `b`
(`a = b` included). -/
def listIsPre : List String → List String → Bool
  | [], _ => true
  | _ :: _, [] => false
  | a :: as, b :: bs => a == b && listIsPre as bs

/-- `shutil.rmtree(p)`: drop `p` and everything below it. -/
def FS.removeTree (fs : FS) (p : List String) : FS :=
  ⟨fs.entries.filter (fun e => !listIsPre p e.1)⟩

/-- Names of the immediate child directories of `p` (`iterdir` + `is_dir`).
The node is consulted through `lookup` so duplicate raw entries cannot
disagree with reads. -/
def FS.childDirs (fs : FS) (p : List String) : List String :=
  fs.entries.filterMap (fun e =>
    match e.1.drop p.length with
    | [n] =>
      if e.1.take p.length = p ∧ fs.lookup e.1 = some FsNode.dir then some n else none
    | _ => none)

/-- `tarfile.extractall(base)`: write each member (creating parent
directories) under `base`. -/
def FS.extractTo (fs : FS) (base : List String) (es : List (List String × String)) : FS :=
  es.foldl (fun f e =>
    ((f.mkdirp (base ++ e.1).dropLast).writeFile (base ++ e.1) (FileData.text e.2))) fs

/-- Render a path the way Python string-interpolates a `Path`. -/
def renderPath (p : List String) : String :=
  String.intercalate "/" p

/-! ## WineManager.create_prefix (src/core/wine_manager.py lines 130-199) -/

/-- Outcome of the `wineboot -i` subprocess: exit 0, nonzero exit with
captured stderr, or `subprocess.TimeoutExpired`. -/
inductive RunOutcome
  | ok
  | fail (stderr : String)
  | timeout
deriving DecidableEq

/-- The second positional argument of `create_prefix`.  Python is
dynamically typed: `PrefixTemplateManager.apply_template` passes a plain
`str` here, on which `.exists()` raises `AttributeError`; that possibility
is `str`. -/
inductive ArgPath
  | defaulted
  | given (p : List String)
  | str (s : String)
deriving DecidableEq

/-- An uncaught Python exception surfaced by the embedding. -/
inductive PyExc
  | attributeError
deriving DecidableEq

/-- Ambient state of a `WineManager` call that the filesystem does not
capture: whether `verify_wine_installation` succeeds, the outcome of the
`wineboot -i` run, and `config.get_prefixes_dir()`. -/
structure WMEnv where
  wineInstalled : Bool
  wineboot : RunOutcome
  pfxRoot : List String
deriving DecidableEq

/-- `WineManager.create_prefix`.  Faithful control flow: wine check, path
resolution (`AttributeError` on a `str` argument, raised outside the
`try`), existence check, `mkdir(parents=True)`, `wineboot -i` (nonzero exit
and timeout each return an error *without removing the directory*),
best-effort `_set_windows_version` (swallowed, no modelled effect), metadata
write, success.  The in-memory `self.prefixes` registry is not modelled;
the claims about this function only concern filesystem state and results. -/
def create_pfx (env : WMEnv) (fs : FS) (name : String) (pa : ArgPath)
    (winver : String) : Except PyExc (FS × Bool × String) :=
  if env.wineInstalled = false then
    Except.ok (fs, false, "Wine is not installed or not accessible")
  else
    match pa with
    | ArgPath.str _ => Except.error PyExc.attributeError
    | _ =>
      let path := match pa with
        | ArgPath.given p => p
        | _ => env.pfxRoot ++ [name]
      if fs.pathExists path then
        Except.ok (fs, false,
          "Prefix \x27" ++ name ++ "\x27 already exists at " ++ renderPath path)
      else
        let fs1 := fs.mkdirp path
        match env.wineboot with
        | RunOutcome.timeout => Except.ok (fs1, false, "Timeout while creating prefix")
        | RunOutcome.fail err =>
          Except.ok (fs1, false, "Failed to initialize prefix: " ++ err)
        | RunOutcome.ok =>
          let fs2 := fs1.writeFile (path ++ ["winvora.json"]) (FileData.metadata name winver)
          Except.ok (fs2, true, "Prefix \x27" ++ name ++ "\x27 created successfully")

/-! ## WineManager.kill_process (src/core/wine_manager.py lines 435-449) -/

/-- Outcome of the external `kill` command: success, or the two nonzero-exit
causes the claim distinguishes.  `subprocess.run(..., check=True)` raises
`CalledProcessError` for any nonzero exit, carrying only the exit status. -/
inductive KillOutcome
  | ok
  | noSuchProcess
  | permissionDenied
deriving DecidableEq

/-- `WineManager.kill_process`.  Returns the (success, message) pair and the
list of external commands invoked (always exactly one `kill`, which sends
the termination signal; the code never waits for the target to exit). -/
def kill_process (outcome : KillOutcome) (pid : String) : (Bool × String) × List String :=
  (match outcome with
   | KillOutcome.ok => (true, "Process " ++ pid ++ " killed")
   | _ => (false, "Failed to kill process " ++ pid),
   ["kill " ++ pid])

/-! ## WineManager._find_wine (src/core/wine_manager.py lines 38-67) -/

/-- The fixed list of well-known install locations checked last. -/
def commonWinePaths : List String :=
  ["/usr/bin/wine", "/usr/local/bin/wine", "/opt/homebrew/bin/wine", "~/.local/bin/wine"]

/-- The configured-path step: `config.get("wine_path")` is used only when it
is set, non-empty (Python truthiness) and exists on disk. -/
def cfgHit (cfg : Option String) (exf : String → Bool) : Option String :=
  match cfg with
  | some c => if c ≠ "" ∧ exf c = true then some c else none
  | none => none

/-- `WineManager._find_wine`: configured path, then `shutil.which("wine")`,
then the well-known locations; first hit wins; `none` when everything
fails.  A pure function of the host view `(exf, whichW)`: no state is
read or written beyond these inputs. -/
def find_wine (cfg : Option String) (exf : String → Bool) (whichW : Option String) :
    Option String :=
  match cfgHit cfg exf with
  | some c => some c
  | none =>
    match whichW with
    | some w => some w
    | none => commonWinePaths.find? exf

/-! ## WineVersionManager (src/core/wine_versions.py) -/

/-- `WineVersion` (attributes only; `__str__` is `wvStr` below). -/
structure WineVersion where
  version : String
  variant : String
  path : List String
  is_active : Bool
deriving DecidableEq

/-- `WineVersion.__str__`: `f"{self.variant.capitalize()} {self.version}"`. -/
def wvStr (v : WineVersion) : String :=
  v.variant.capitalize ++ " " ++ v.version

/-- An inactive placeholder used as the `getD` fallback in statements. -/
def dummyWV : WineVersion := ⟨"", "", [], false⟩

/-- Host facts the manager observes: `shutil.which("wine")` (an absolute
path when found) and the version string printed by that binary
(`_get_wine_version`, `none` when the subprocess fails). -/
structure HostEnv where
  whichWine : Option (List String)
  sysWineVersion : Option String
deriving DecidableEq

/-- `self.wine_dir = Path.home() / ".local" / "share" / "winvora" / "wine-versions"`. -/
def wineVersionsDir : List String := ["~", ".local", "share", "winvora", "wine-versions"]

/-- `Path.home() / ".cache" / "winvora" / "wine"`. -/
def cacheWineDir : List String := ["~", ".cache", "winvora", "wine"]

/-- `version or "unknown"` applied to `_get_wine_version` (Python truthiness:
`None` and the empty string both fall back). -/
def sysVerString (host : HostEnv) : String :=
  match host.sysWineVersion with
  | some v => if v = "" then "unknown" else v
  | none => "unknown"

/-- The system entry `_scan_versions` adds when `shutil.which` finds wine:
variant `"system"`, path `Path(system_wine).parent`, `is_active=True`. -/
def sysEntries (host : HostEnv) : List WineVersion :=
  match host.whichWine with
  | some wp => [⟨sysVerString host, "system", wp.dropLast, true⟩]
  | none => []

/-- `str.split("-")` (splitting on every dash, empty pieces kept),
implemented by structural recursion over the characters so that concrete
instances reduce. -/
def splitDash : List Char → List Char → List String
  | acc, [] => [String.mk acc.reverse]
  | acc, c :: cs =>
    if c = '-' then String.mk acc.reverse :: splitDash [] cs
    else splitDash (c :: acc) cs

/-- `parts = name.split("-")`; variant `parts[0]` when the name has a dash,
else `"custom"`; version the dash-joined rest, else the whole name. -/
def parseVariantVersion (nm : String) : String × String :=
  let parts := splitDash [] nm.data
  if parts.length > 1 then (parts.headD "", String.intercalate "-" parts.tail)
  else ("custom", nm)

/-- The `WineVersion` built for a directory `nm` under `wine_dir`
(`is_active=False`). -/
def dlEntry (nm : String) : WineVersion :=
  ⟨(parseVariantVersion nm).2, (parseVariantVersion nm).1, wineVersionsDir ++ [nm], false⟩

/-- The directory-scan half of `_scan_versions`: every child directory of
`wine_dir` whose `bin/wine` exists. -/
def dlEntries (fs : FS) : List WineVersion :=
  (fs.childDirs wineVersionsDir).filterMap (fun nm =>
    if fs.pathExists (wineVersionsDir ++ [nm, "bin", "wine"]) then some (dlEntry nm) else none)

/-- `WineVersionManager._scan_versions`: rebuilds the list from scratch —
the system wine (when discoverable) with `is_active=True`, then the
downloaded directories, all inactive. -/
def scanVersions (host : HostEnv) (fs : FS) : List WineVersion :=
  sysEntries host ++ dlEntries fs

/-- Number of versions flagged active. -/
def countActive (vs : List WineVersion) : Nat :=
  (vs.filter (fun v => v.is_active)).length

/-- The list effect of `set_active_version`: clear every flag, then set the
flag of the element the caller passed (Python mutates the aliased object;
the caller always passes an element of the list, identified here by its
index — an out-of-range index models an object not in the list, leaving
every listed flag cleared). -/
def setActiveList : List WineVersion → Nat → List WineVersion
  | [], _ => []
  | v :: vs, 0 => { v with is_active := true } :: vs.map (fun w => { w with is_active := false })
  | v :: vs, i + 1 => { v with is_active := false } :: setActiveList vs i

/-- The wine binary `set_active_version` records in the config:
`path / "wine"` for the system variant, `path / "bin" / "wine"` otherwise. -/
def wineBinOf (v : WineVersion) : List String :=
  if v.variant = "system" then v.path ++ ["wine"] else v.path ++ ["bin", "wine"]

/-- Manager state: filesystem, the in-memory `self.versions`, and the
persisted `wine_path` config setting. -/
structure VMState where
  fs : FS
  versions : List WineVersion
  cfgWinePath : Option String
deriving DecidableEq

/-- `WineVersionManager.__init__`: `wine_dir.mkdir(parents=True,
exist_ok=True)` then `_scan_versions()` (config `wine_path` defaults to
null). -/
def vmInit (host : HostEnv) (fs : FS) : VMState :=
  let fs1 := fs.mkdirp wineVersionsDir
  ⟨fs1, scanVersions host fs1, none⟩

/-- `set_active_version`: flag flip plus config save; always succeeds. -/
def vmSetActive (s : VMState) (i : Nat) : VMState × Bool × String :=
  let vs := setActiveList s.versions i
  match s.versions.get? i with
  | some v =>
    ({ s with versions := vs, cfgWinePath := some (renderPath (wineBinOf v)) },
     true, "Switched to " ++ wvStr v)
  | none => ({ s with versions := vs }, true, "Switched to external version")

/-- `download_urls.get(variant)`. -/
def wineDownloadUrl (variant version : String) : Option String :=
  if variant = "staging" then
    some ("https://github.com/wine-staging/wine-staging/archive/v" ++ version ++ ".tar.gz")
  else if variant = "proton" then
    some ("https://github.com/ValveSoftware/Proton/archive/refs/tags/proton-" ++ version
      ++ ".tar.gz")
  else none

/-- The filesystem part of `WineVersionManager.download_wine_version`:
unknown variant is rejected first; the cache directory is created; the
archive is fetched (`net` is what `urlretrieve` would store) ONLY when the
cache file does not already exist; the install directory is created; then
`tarfile.open(...).extractall(install_dir)` — a truncated archive raises,
which the `except` turns into a failure, with the install directory already
created and the cache file untouched. -/
def download_wine (net : FileData) (fs : FS) (variant version : String) :
    FS × Bool × String :=
  match wineDownloadUrl variant version with
  | none => (fs, false, "Unknown variant: " ++ variant)
  | some _ =>
    let fs1 := fs.mkdirp cacheWineDir
    let tarP := cacheWineDir ++ [variant ++ "-" ++ version ++ ".tar.gz"]
    let fs2 := if fs1.pathExists tarP then fs1 else fs1.writeFile tarP net
    let instD := wineVersionsDir ++ [variant ++ "-" ++ version]
    let fs3 := fs2.mkdirp instD
    match fs2.readFile tarP with
    | some (FileData.archive es false) =>
      (fs3.extractTo instD es, true, "Downloaded Wine " ++ variant ++ " " ++ version)
    | _ => (fs3, false, "Download failed: bad archive")

/-- `download_wine_version` at the manager level: on success,
`_scan_versions()` rebuilds `self.versions` from the new filesystem. -/
def vmDownload (host : HostEnv) (s : VMState) (variant version : String)
    (net : FileData) : VMState × Bool × String :=
  let r := download_wine net s.fs variant version
  if r.2.1 then
    ({ s with fs := r.1, versions := scanVersions host r.1 }, true, r.2.2)
  else
    ({ s with fs := r.1 }, false, r.2.2)

/-- `delete_version`: refuses the system variant, then an active version;
otherwise `shutil.rmtree(version.path)` (raising — caught — when the path
does not exist) followed by `_scan_versions()`.  The argument is the
caller-supplied `WineVersion` object, exactly as in Python. -/
def vmDelete (host : HostEnv) (s : VMState) (v : WineVersion) : VMState × Bool × String :=
  if v.variant = "system" then (s, false, "Cannot delete system Wine")
  else if v.is_active then (s, false, "Cannot delete active Wine version")
  else if s.fs.pathExists v.path then
    let fs1 := s.fs.removeTree v.path
    ({ s with fs := fs1, versions := scanVersions host fs1 }, true, "Deleted " ++ wvStr v)
  else (s, false, "Failed to delete: error")

/-- One observable manager operation (§ the claims quantify over these). -/
inductive VMOp
  | rescan
  | setActive (i : Nat)
  | download (variant version : String) (net : FileData)
  | deleteV (v : WineVersion)

/-- State transition of the manager under one operation. -/
def vmStep (host : HostEnv) (s : VMState) : VMOp → VMState
  | VMOp.rescan => { s with versions := scanVersions host s.fs }
  | VMOp.setActive i => (vmSetActive s i).1
  | VMOp.download variant version net => (vmDownload host s variant version net).1
  | VMOp.deleteV v => (vmDelete host s v).1

/-! ## DXVKManager (src/core/dxvk.py) -/

/-- `self.dxvk_versions`: known versions and their release URLs. -/
def dxvkVersions : List (String × String) :=
  [("2.3.1", "https://github.com/doitsujin/dxvk/releases/download/v2.3.1/dxvk-2.3.1.tar.gz"),
   ("2.3", "https://github.com/doitsujin/dxvk/releases/download/v2.3/dxvk-2.3.tar.gz"),
   ("2.2", "https://github.com/doitsujin/dxvk/releases/download/v2.2/dxvk-2.2.tar.gz")]

def dxvkUrlOf (version : String) : Option String :=
  (dxvkVersions.find? (fun e => e.1 == version)).map Prod.snd

/-- `Path.home() / ".cache" / "winvora" / "dxvk"`. -/
def dxvkCacheDir : List String := ["~", ".cache", "winvora", "dxvk"]

/-- The fixed DLL list. -/
def dxvkDlls : List String := ["d3d9.dll", "d3d10core.dll", "d3d11.dll", "dxgi.dll"]

/-- Substring test, Python `pat in s`. -/
def charsPre : List Char → List Char → Bool
  | [], _ => true
  | _ :: _, [] => false
  | a :: as, b :: bs => a == b && charsPre as bs

def charsInfix (pat : List Char) : List Char → Bool
  | [] => charsPre pat []
  | c :: cs => charsPre pat (c :: cs) || charsInfix pat cs

def strContains (s pat : String) : Bool :=
  charsInfix pat.data s.data

/-- `str.replace(pat, rep)` for a nonempty pattern: replace every
occurrence left to right.  Fuel (the string length) makes the recursion
structural so that concrete instances reduce; each step consumes at least
one character. -/
def replaceChars (pat rep : List Char) : Nat → List Char → List Char
  | 0, l => l
  | _ + 1, [] => []
  | fuel + 1, c :: cs =>
    if charsPre pat (c :: cs) && !pat.isEmpty then
      rep ++ replaceChars pat rep fuel ((c :: cs).drop pat.length)
    else c :: replaceChars pat rep fuel cs

def strReplace (s pat rep : String) : String :=
  String.mk (replaceChars pat.data rep.data s.data.length s.data)

/-- The override line written for one DLL:
a quoted `name` (with `name = dll.replace(".dll", "")`), an equals sign and
a quoted `native,builtin`. -/
def overrideLine (dll : String) : String :=
  "\x22" ++ strReplace dll ".dll" "" ++ "\x22=\x22native,builtin\x22"

/-- The blob appended for one missing override (a fresh
`[Software\\Wine\\DllOverrides]` section each time). -/
def overrideBlob (dll : String) : String :=
  "\n[Software\\\\Wine\\\\DllOverrides]\n" ++ overrideLine dll ++ "\n"

/-- One fold step of `_set_dll_overrides`: append the blob unless the line
is already a substring of the content. -/
def overrideStep (c : String) (dll : String) : String :=
  if strContains c (overrideLine dll) then c else c ++ overrideBlob dll

/-- `DXVKManager._set_dll_overrides`: no-op when `user.reg` is missing (or
unreadable as text); otherwise append a section per missing override line
and write the file back. -/
def setDllOverrides (fs : FS) (pfx : List String) (dlls : List String) : FS :=
  let userReg := pfx ++ ["user.reg"]
  match fs.readFile userReg with
  | some (FileData.text content) =>
    fs.writeFile userReg (FileData.text (dlls.foldl overrideStep content))
  | _ => fs

/-- The two `shutil.copy2` loops of `install_dxvk`: for each DLL present
under `x64` copy it into `system32`; then, when both `x32` and `syswow64`
exist, the same into `syswow64`. -/
def copyDlls (fs : FS) (extractDir system32 syswow64 : List String) : FS :=
  let fsA :=
    if fs.pathExists (extractDir ++ ["x64"]) then
      dxvkDlls.foldl (fun f dll =>
        match f.readFile (extractDir ++ ["x64", dll]) with
        | some d => f.writeFile (system32 ++ [dll]) d
        | none => f) fs
    else fs
  if fsA.pathExists (extractDir ++ ["x32"]) && fsA.pathExists syswow64 then
    dxvkDlls.foldl (fun f dll =>
      match f.readFile (extractDir ++ ["x32", dll]) with
      | some d => f.writeFile (syswow64 ++ [dll]) d
      | none => f) fsA
  else fsA

/-- `DXVKManager.install_dxvk`.  Faithful order: existence checks, cache
directory, fetch only when the cache archive is absent (unknown versions are
rejected only on that path), extract only when the extraction directory is
absent (a truncated archive raises — caught — after the cache/install
directories were already touched), DLL copies, `_set_dll_overrides`, marker
write (`write_text(version)`, an overwrite). -/
def install_dxvk (net : FileData) (fs : FS) (pfx : List String) (version : String) :
    FS × Bool × String :=
  if !fs.pathExists pfx then (fs, false, "Prefix does not exist")
  else
    let system32 := pfx ++ ["drive_c", "windows", "system32"]
    let syswow64 := pfx ++ ["drive_c", "windows", "syswow64"]
    if !fs.pathExists system32 then (fs, false, "Invalid prefix structure")
    else
      let fs1 := fs.mkdirp dxvkCacheDir
      let tarP := dxvkCacheDir ++ ["dxvk-" ++ version ++ ".tar.gz"]
      if !fs1.pathExists tarP ∧ dxvkUrlOf version = none then
        (fs1, false, "Unknown DXVK version: " ++ version)
      else
        let fs2 := if fs1.pathExists tarP then fs1 else fs1.writeFile tarP net
        let extractDir := dxvkCacheDir ++ ["dxvk-" ++ version]
        match (if fs2.pathExists extractDir then some fs2 else
            match fs2.readFile tarP with
            | some (FileData.archive es false) => some (fs2.extractTo dxvkCacheDir es)
            | _ => none) with
        | none => (fs2, false, "Failed to install DXVK: bad archive")
        | some fs3 =>
          let fs4 := copyDlls fs3 extractDir system32 syswow64
          let fs5 := setDllOverrides fs4 pfx dxvkDlls
          let fs6 := fs5.writeFile (pfx ++ [".dxvk_installed"]) (FileData.text version)
          (fs6, true, "DXVK " ++ version ++ " installed successfully")

/-! ## PrefixTemplateManager.apply_template (src/core/prefix_templates.py) -/

/-- `PrefixTemplate` (the fields `apply_template` consults). -/
structure PfxTemplate where
  name : String
  description : String
  windows_version : String
  winetricks_packages : List String
  dxvkFlag : Bool
deriving DecidableEq

/-- The six built-in templates of `_load_builtin_templates`, in insertion
order. -/
def builtinTemplates : List (String × PfxTemplate) :=
  [("gaming", ⟨"gaming", "Optimized for gaming with DXVK and common runtimes", "win10",
      ["vcrun2019", "d3dx9", "dotnet48"], true⟩),
   ("steam", ⟨"steam", "Pre-configured for Steam client", "win10",
      ["vcrun2019", "dotnet48", "corefonts"], true⟩),
   ("office", ⟨"office", "Optimized for Microsoft Office applications", "win10",
      ["dotnet48", "vcrun2019", "corefonts", "msxml6"], false⟩),
   ("development", ⟨"development", "For development tools and IDEs", "win10",
      ["vcrun2019", "dotnet48"], false⟩),
   ("compatibility", ⟨"compatibility", "Maximum compatibility for older applications", "win7",
      ["vcrun2008", "vcrun2010", "dotnet35"], false⟩),
   ("minimal", ⟨"minimal", "Minimal prefix with no extra packages", "win10", [], false⟩)]

/-- `get_template`: built-ins shadow custom templates. -/
def getTemplate (custom : List (String × PfxTemplate)) (nm : String) : Option PfxTemplate :=
  match builtinTemplates.find? (fun e => e.1 == nm) with
  | some e => some e.2
  | none => (custom.find? (fun e => e.1 == nm)).map Prod.snd

/-- Result view of `apply_template`: final filesystem, (success, message),
the winetricks packages for which `install_package` was invoked (in order),
and whether the DXVK install was invoked. -/
structure ApplyOut where
  fs : FS
  ok : Bool
  msg : String
  attempted : List String
  dxvkAttempted : Bool
deriving DecidableEq

/-- `PrefixTemplateManager.apply_template`.  Faithful to the source: the
template is resolved; then `wine_manager.create_prefix(prefix_name,
template.windows_version)` — the version string is passed POSITIONALLY as
the `path` parameter, so `path.exists()` is evaluated on a `str` and an
`AttributeError` escapes whenever wine is available.  Were creation to
succeed, the winetricks block runs only when `template.winetricks_packages`
is nonempty AND a progress callback was supplied (the gate at line 185),
and inside it only when winetricks is installed; each `install_package`
result is ignored.  The DXVK step depends only on the template flag.
`install_package` itself is an external subprocess whose per-package effect
the claims do not inspect; only the invocation list is recorded. -/
def apply_template (env : WMEnv) (winetricksOn : Bool) (hasCb : Bool)
    (custom : List (String × PfxTemplate)) (fs : FS) (pfxName tmplName : String)
    (netD : FileData) : Except PyExc ApplyOut :=
  match getTemplate custom tmplName with
  | none => Except.ok ⟨fs, false, "Template \x27" ++ tmplName ++ "\x27 not found", [], false⟩
  | some t =>
    match create_pfx env fs pfxName (ArgPath.str t.windows_version) "win10" with
    | Except.error e => Except.error e
    | Except.ok (fs1, false, m) => Except.ok ⟨fs1, false, m, [], false⟩
    | Except.ok (fs1, true, _) =>
      let pfxPath := env.pfxRoot ++ [pfxName]
      let attempted :=
        if t.winetricks_packages ≠ [] ∧ hasCb = true then
          (if winetricksOn then t.winetricks_packages else [])
        else []
      let fs2 := if t.dxvkFlag then (install_dxvk netD fs1 pfxPath "2.3.1").1 else fs1
      Except.ok ⟨fs2, true,
        "Prefix \x27" ++ pfxName ++ "\x27 created from template \x27" ++ tmplName ++ "\x27",
        attempted, t.dxvkFlag⟩

-- THEOREMS BELOW

/-! ## Filesystem lemmas -/

theorem lookupEntries_append (l₁ l₂ : List (List String × FsNode)) (p : List String) :
    lookupEntries (l₁ ++ l₂) p =
      match lookupEntries l₁ p with
      | some n => some n
      | none => lookupEntries l₂ p := by
  induction l₁ with
  | nil => simp [lookupEntries]
  | cons e es ih => by_cases h : e.1 = p <;> simp [lookupEntries, h, ih]

theorem lookupEntries_set (l : List (List String × FsNode)) (p : List String) (n : FsNode)
    (q : List String) :
    lookupEntries (setEntries l p n) q = if q = p then some n else lookupEntries l q := by
  induction l with
  | nil =>
    by_cases h : q = p
    · subst h; simp [setEntries, lookupEntries]
    · have h2 : ¬ p = q := fun hh => h hh.symm
      simp [setEntries, lookupEntries, h, h2]
  | cons e es ih =>
    by_cases he : e.1 = p
    · by_cases hq : q = p
      · subst hq; simp [setEntries, lookupEntries, he, ih]
      · have h2 : ¬ p = q := fun hh => hq hh.symm
        have h3 : ¬ e.1 = q := by rw [he]; exact h2
        simp [setEntries, lookupEntries, he, h2, h3, ih, hq]
    · by_cases hq : q = p
      · subst hq
        have h3 : ¬ e.1 = q := he
        simp [setEntries, lookupEntries, he, h3, ih]
      · by_cases h4 : e.1 = q
        · simp [setEntries, lookupEntries, he, h4, ih, hq]
        · simp [setEntries, lookupEntries, he, h4, ih, hq]

theorem lookupEntries_filter (l : List (List String × FsNode)) (g : List String → Bool)
    (q : List String) :
    lookupEntries (l.filter (fun e => g e.1)) q =
      if g q then lookupEntries l q else none := by
  induction l with
  | nil => simp [lookupEntries]
  | cons e es ih =>
    by_cases he : e.1 = q
    · subst he
      by_cases hg : g e.1 <;> simp [List.filter_cons, hg, lookupEntries, ih]
    · by_cases hg : g e.1 <;> simp [List.filter_cons, hg, lookupEntries, he, ih]

theorem lookupEntries_eq_some_exists_mem (l : List (List String × FsNode)) (q : List String)
    (n : FsNode) (h : lookupEntries l q = some n) : ∃ e ∈ l, e.1 = q := by
  induction l with
  | nil => simp [lookupEntries] at h
  | cons e es ih =>
    by_cases he : e.1 = q
    · exact ⟨e, by simp, he⟩
    · simp [lookupEntries, he] at h
      rcases ih h with ⟨f, hf, hfq⟩
      exact ⟨f, by simp [hf], hfq⟩

theorem FS.lookup_writeFile (fs : FS) (p : List String) (d : FileData) (q : List String) :
    (fs.writeFile p d).lookup q = if q = p then some (FsNode.file d) else fs.lookup q := by
  simp [FS.writeFile, FS.lookup, lookupEntries_set]

theorem FS.lookup_writeFile_self (fs : FS) (p : List String) (d : FileData) :
    (fs.writeFile p d).lookup p = some (FsNode.file d) := by
  simp [FS.lookup_writeFile]

theorem FS.lookup_writeFile_ne (fs : FS) (p : List String) (d : FileData) (q : List String)
    (h : q ≠ p) : (fs.writeFile p d).lookup q = fs.lookup q := by
  simp [FS.lookup_writeFile, h]

theorem FS.readFile_writeFile_self (fs : FS) (p : List String) (d : FileData) :
    (fs.writeFile p d).readFile p = some d := by
  simp [FS.readFile, FS.lookup_writeFile_self]

theorem FS.lookup_mkdirOne (fs : FS) (p q : List String) :
    (fs.mkdirOne p).lookup q =
      if fs.pathExists p then fs.lookup q
      else if q = p then some FsNode.dir else fs.lookup q := by
  by_cases hp : fs.pathExists p
  · simp [FS.mkdirOne, hp]
  · simp only [FS.mkdirOne, hp, if_false, Bool.false_eq_true]
    simp only [FS.lookup, lookupEntries_append]
    by_cases hq : q = p
    · subst hq
      have : lookupEntries fs.entries q = none := by
        simp [FS.pathExists, FS.lookup, Option.isSome_iff_exists] at hp
        cases hl : lookupEntries fs.entries q with
        | none => rfl
        | some x => exact absurd hl (by simpa using hp x)
      simp [this, lookupEntries]
    · cases hl : lookupEntries fs.entries q with
      | none =>
        have h2 : ¬ p = q := fun hh => hq hh.symm
        simp [lookupEntries, hq, hl, h2]
      | some x => simp [hq, hl]

theorem lookup_foldl_mkdirOne (ds : List (List String)) (fs : FS) (q : List String) :
    ((ds.foldl FS.mkdirOne fs).lookup q) =
      if q ∈ ds ∧ fs.lookup q = none then some FsNode.dir else fs.lookup q := by
  induction ds generalizing fs with
  | nil => simp
  | cons d ds ih =>
    simp only [List.foldl_cons, ih]
    by_cases hqd : q = d
    · subst hqd
      cases hl : fs.lookup q with
      | some x =>
        have hp : fs.pathExists q := by simp [FS.pathExists, hl]
        simp [FS.lookup_mkdirOne, hp, hl]
      | none =>
        have hp : ¬ fs.pathExists q = true := by simp [FS.pathExists, hl]
        simp [FS.lookup_mkdirOne, hp, hl]
    · have hlm : (fs.mkdirOne d).lookup q = fs.lookup q := by
        rw [FS.lookup_mkdirOne]
        by_cases hp : fs.pathExists d <;> simp [hp, hqd]
      simp [hlm, hqd]

theorem FS.lookup_mkdirp (fs : FS) (p q : List String) :
    (fs.mkdirp p).lookup q =
      if q ∈ ancestors p ∧ fs.lookup q = none then some FsNode.dir else fs.lookup q := by
  simp [FS.mkdirp, lookup_foldl_mkdirOne]

theorem self_mem_ancestors (p : List String) (h : p ≠ []) : p ∈ ancestors p := by
  have hl : 0 < p.length := List.length_pos.mpr h
  have : p.length - 1 ∈ List.range p.length := by
    simp [List.mem_range]; omega
  have htake : p.take (p.length - 1 + 1) = p := by
    have : p.length - 1 + 1 = p.length := by omega
    simp [this]
  simpa [ancestors, htake] using List.mem_map_of_mem (fun i => p.take (i + 1)) this

theorem FS.pathExists_mkdirp_self (fs : FS) (p : List String) (h : p ≠ []) :
    (fs.mkdirp p).pathExists p = true := by
  rw [FS.pathExists, FS.lookup_mkdirp]
  by_cases hl : fs.lookup p = none
  · simp [self_mem_ancestors p h, hl]
  · cases hx : fs.lookup p with
    | none => exact absurd hx hl
    | some x => simp [hx]

theorem mem_ancestors_elim (p q : List String) (h : q ∈ ancestors p) :
    ∃ t, q ++ t = p ∧ q ≠ [] := by
  simp only [ancestors, List.mem_map, List.mem_range] at h
  rcases h with ⟨i, hi, hq⟩
  refine ⟨p.drop (i + 1), by rw [← hq]; exact List.take_append_drop _ _, ?_⟩
  rw [← hq]
  have : (p.take (i + 1)).length = i + 1 := by
    rw [List.length_take]; omega
  intro hnil
  rw [hnil] at this
  simp at this

theorem FS.lookup_removeTree (fs : FS) (p q : List String) :
    (fs.removeTree p).lookup q = if listIsPre p q then none else fs.lookup q := by
  have := lookupEntries_filter fs.entries (fun r => !listIsPre p r) q
  by_cases h : listIsPre p q <;> simp [FS.removeTree, FS.lookup, this, h]

theorem listIsPre_iff (a b : List String) : listIsPre a b = true ↔ ∃ t, a ++ t = b := by
  induction a generalizing b with
  | nil => simp [listIsPre]
  | cons x xs ih =>
    cases b with
    | nil => simp [listIsPre]
    | cons y ys =>
      simp only [listIsPre, Bool.and_eq_true, beq_iff_eq, ih, List.cons_append,
        List.cons.injEq]
      constructor
      · rintro ⟨hx, t, ht⟩; exact ⟨t, hx, ht⟩
      · rintro ⟨t, hx, ht⟩; exact ⟨hx, t, ht⟩

theorem listIsPre_refl (a : List String) : listIsPre a a = true := by
  rw [listIsPre_iff]; exact ⟨[], by simp⟩

theorem listIsPre_append (a t : List String) : listIsPre a (a ++ t) = true := by
  rw [listIsPre_iff]; exact ⟨t, rfl⟩

theorem pre_total_of_append_eq (a b x y : List String) (h : a ++ x = b ++ y) :
    listIsPre a b = true ∨ listIsPre b a = true := by
  induction a generalizing b with
  | nil => left; simp [listIsPre]
  | cons c cs ih =>
    cases b with
    | nil => right; simp [listIsPre]
    | cons d ds =>
      simp only [List.cons_append, List.cons.injEq] at h
      rcases h with ⟨hcd, ht⟩
      rcases ih ds ht with hcase | hcase
      · left; simp [listIsPre, hcd, hcase]
      · right; simp [listIsPre, hcd, hcase]

theorem mem_childDirs_iff (fs : FS) (p : List String) (n : String) :
    n ∈ fs.childDirs p ↔ fs.lookup (p ++ [n]) = some FsNode.dir := by
  constructor
  · intro h
    simp only [FS.childDirs, List.mem_filterMap] at h
    rcases h with ⟨e, _, he⟩
    cases hdrop : e.1.drop p.length with
    | nil => simp [hdrop] at he
    | cons m ms =>
      cases ms with
      | cons _ _ => simp [hdrop] at he
      | nil =>
        simp only [hdrop] at he
        by_cases hc : e.1.take p.length = p ∧ fs.lookup e.1 = some FsNode.dir
        · rcases hc with ⟨htake, hdir⟩
          have hm : m = n := by simp [htake, hdir] at he; exact he
          have he1 : e.1 = p ++ [n] := by
            have := List.take_append_drop p.length e.1
            rw [htake, hdrop, hm] at this
            exact this.symm
          rw [← he1]; exact hdir
        · simp [if_neg hc] at he
  · intro h
    rcases lookupEntries_eq_some_exists_mem fs.entries (p ++ [n]) FsNode.dir h with ⟨e, hmem, he⟩
    simp only [FS.childDirs, List.mem_filterMap]
    refine ⟨e, hmem, ?_⟩
    have hdrop : e.1.drop p.length = [n] := by rw [he]; exact List.drop_left p [n]
    have htake : e.1.take p.length = p := by rw [he]; exact List.take_left p [n]
    simp [hdrop, htake, he, h]

theorem not_mem_ancestors_of_longer (p q : List String) (h : p.length < q.length) :
    q ∉ ancestors p := by
  intro hm
  rcases mem_ancestors_elim p q hm with ⟨t, ht, -⟩
  have := congrArg List.length ht
  simp at this
  omega

theorem FS.lookup_mkdirp_of_longer (fs : FS) (p q : List String) (h : p.length < q.length) :
    (fs.mkdirp p).lookup q = fs.lookup q := by
  rw [FS.lookup_mkdirp]
  simp [not_mem_ancestors_of_longer p q h]

theorem FS.readFile_mkdirp_of_longer (fs : FS) (p q : List String) (h : p.length < q.length) :
    (fs.mkdirp p).readFile q = fs.readFile q := by
  simp [FS.readFile, FS.lookup_mkdirp_of_longer fs p q h]

theorem FS.pathExists_of_readFile (fs : FS) (q : List String) (d : FileData)
    (h : fs.readFile q = some d) : fs.pathExists q = true := by
  rw [FS.pathExists]
  rw [FS.readFile] at h
  cases hl : fs.lookup q with
  | none => rw [hl] at h; simp at h
  | some n => simp [hl]

/-- The wine cache archive path is never an ancestor of the install
directory (their second components differ). -/
theorem cacheWine_not_ancestor_inst (a b : String) :
    cacheWineDir ++ [a] ∉ ancestors (wineVersionsDir ++ [b]) := by
  intro hm
  rcases mem_ancestors_elim _ _ hm with ⟨t, ht, -⟩
  simp [cacheWineDir, wineVersionsDir] at ht

/-! ## Claim C1 (create rollback) -/

/-- C1, counterexample: with wine installed and `wineboot -i` exiting
nonzero, `create_prefix` returns the error with the freshly created prefix
directory STILL PRESENT — the claimed rollback does not happen. -/
theorem c1_no_rollback_counterexample :
    (create_pfx ⟨true, RunOutcome.fail "boom", ["root"]⟩ FS.empty "game" ArgPath.defaulted
        "win10"
      = Except.ok (FS.empty.mkdirp ["root", "game"], false, "Failed to initialize prefix: boom"))
    ∧ (FS.empty.mkdirp ["root", "game"]).pathExists ["root", "game"] = true := by
  exact ⟨rfl, rfl⟩

/-- C1, amended: when the runtime initialization step fails after the
directory was created (nonzero exit or timeout), `create_prefix` returns the
error with the directory LEFT IN PLACE — no rollback is performed, so a
directory for that name exists afterwards without a fully-initialized
environment. -/
theorem create_pfx_failure_leaves_directory (env : WMEnv) (fs : FS) (name winver : String)
    (hw : env.wineInstalled = true)
    (hnew : fs.pathExists (env.pfxRoot ++ [name]) = false)
    (hfail : env.wineboot ≠ RunOutcome.ok) :
    ∃ msg, create_pfx env fs name ArgPath.defaulted winver
        = Except.ok (fs.mkdirp (env.pfxRoot ++ [name]), false, msg)
      ∧ (fs.mkdirp (env.pfxRoot ++ [name])).pathExists (env.pfxRoot ++ [name]) = true := by
  have hne : env.pfxRoot ++ [name] ≠ [] := by simp
  have hex := FS.pathExists_mkdirp_self fs (env.pfxRoot ++ [name]) hne
  cases hwb : env.wineboot with
  | ok => exact absurd hwb hfail
  | fail err =>
    exact ⟨"Failed to initialize prefix: " ++ err, by simp [create_pfx, hw, hnew, hwb], hex⟩
  | timeout =>
    exact ⟨"Timeout while creating prefix", by simp [create_pfx, hw, hnew, hwb], hex⟩

/-- Witness for `create_pfx_failure_leaves_directory` at a concrete input. -/
theorem create_pfx_failure_leaves_directory_witness :
    (true : Bool) = true ∧ FS.empty.pathExists (["root"] ++ ["game"]) = false
    ∧ RunOutcome.timeout ≠ RunOutcome.ok
    ∧ ∃ msg, create_pfx ⟨true, RunOutcome.timeout, ["root"]⟩ FS.empty "game" ArgPath.defaulted
          "win10"
        = Except.ok (FS.empty.mkdirp (["root"] ++ ["game"]), false, msg)
      ∧ (FS.empty.mkdirp (["root"] ++ ["game"])).pathExists (["root"] ++ ["game"]) = true :=
  ⟨rfl, rfl, by decide,
   create_pfx_failure_leaves_directory ⟨true, RunOutcome.timeout, ["root"]⟩ FS.empty "game"
     "win10" rfl rfl (by decide)⟩

/-! ## Claim C4 (duplicate create) -/

/-- C4: a second `create_prefix` call for a name whose prefix path already
exists (because the first call succeeded) fails with the already-exists
message and returns the filesystem unchanged — nothing is created, modified
or removed. -/
theorem create_pfx_second_call_fails (env : WMEnv) (fs fs1 : FS) (name winver m : String)
    (h1 : create_pfx env fs name ArgPath.defaulted winver = Except.ok (fs1, true, m)) :
    create_pfx env fs1 name ArgPath.defaulted winver =
      Except.ok (fs1, false,
        "Prefix \x27" ++ name ++ "\x27 already exists at "
          ++ renderPath (env.pfxRoot ++ [name])) := by
  by_cases hw : env.wineInstalled = false
  · simp [create_pfx, hw] at h1
  · have hw2 : env.wineInstalled = true := by
      revert hw; cases env.wineInstalled <;> simp
    by_cases hex : fs.pathExists (env.pfxRoot ++ [name])
    · simp [create_pfx, hw2, hex] at h1
    · cases hwb : env.wineboot with
      | fail err => simp [create_pfx, hw2, hex, hwb] at h1
      | timeout => simp [create_pfx, hw2, hex, hwb] at h1
      | ok =>
        simp only [create_pfx, hw2, hex, hwb] at h1
        simp only [Bool.true_eq_false, if_false, Bool.false_eq_true, if_neg, reduceCtorEq,
          Except.ok.injEq, Prod.mk.injEq] at h1
        have hfs1 : fs1 = (fs.mkdirp (env.pfxRoot ++ [name])).writeFile
            ((env.pfxRoot ++ [name]) ++ ["winvora.json"])
            (FileData.metadata name winver) := by
          rcases h1 with ⟨ha, _⟩
          exact ha.symm
        have hne : env.pfxRoot ++ [name] ≠ (env.pfxRoot ++ [name]) ++ ["winvora.json"] := by
          intro hc
          have := congrArg List.length hc
          simp at this
        have hpex : fs1.pathExists (env.pfxRoot ++ [name]) = true := by
          rw [hfs1, FS.pathExists, FS.lookup_writeFile, if_neg hne]
          exact FS.pathExists_mkdirp_self fs (env.pfxRoot ++ [name]) (by simp)
        simp [create_pfx, hw2, hpex]

/-- Witness for `create_pfx_second_call_fails` at a concrete input. -/
theorem create_pfx_second_call_fails_witness :
    (create_pfx ⟨true, RunOutcome.ok, ["root"]⟩ FS.empty "game" ArgPath.defaulted "win10"
      = Except.ok (⟨[(["root"], FsNode.dir), (["root", "game"], FsNode.dir),
          (["root", "game", "winvora.json"], FsNode.file (FileData.metadata "game" "win10"))]⟩,
          true, "Prefix \x27game\x27 created successfully"))
    ∧ create_pfx ⟨true, RunOutcome.ok, ["root"]⟩
        ⟨[(["root"], FsNode.dir), (["root", "game"], FsNode.dir),
          (["root", "game", "winvora.json"], FsNode.file (FileData.metadata "game" "win10"))]⟩
        "game" ArgPath.defaulted "win10"
      = Except.ok (⟨[(["root"], FsNode.dir), (["root", "game"], FsNode.dir),
          (["root", "game", "winvora.json"], FsNode.file (FileData.metadata "game" "win10"))]⟩,
          false, "Prefix \x27game\x27 already exists at "
            ++ renderPath ((⟨true, RunOutcome.ok, ["root"]⟩ : WMEnv).pfxRoot ++ ["game"])) :=
  ⟨rfl,
   create_pfx_second_call_fails ⟨true, RunOutcome.ok, ["root"]⟩ FS.empty _ "game" "win10"
     "Prefix \x27game\x27 created successfully" rfl⟩

/-! ## Claim C8 (kill_process) -/

/-- C8, counterexample: the two failure causes — process not found and
permission denied — produce IDENTICAL results from `kill_process`; the code
does not distinguish them (a bare `except subprocess.CalledProcessError`
with one generic message). -/
theorem kill_process_failure_kinds_indistinguishable :
    kill_process KillOutcome.noSuchProcess "4242"
      = kill_process KillOutcome.permissionDenied "4242"
    ∧ (kill_process KillOutcome.noSuchProcess "4242").1.1 = false := ⟨rfl, rfl⟩

/-- C8, amended: `kill_process` invokes the external `kill` command exactly
once (which sends the termination signal; the code never waits for the
target to exit), reports success on exit 0, and collapses EVERY failure —
process not found and permission denied alike — into the same single
generic failure result. -/
theorem kill_process_result_shape (outcome : KillOutcome) (pid : String) :
    (kill_process outcome pid).2 = ["kill " ++ pid]
    ∧ (outcome = KillOutcome.ok →
        (kill_process outcome pid).1 = (true, "Process " ++ pid ++ " killed"))
    ∧ (outcome ≠ KillOutcome.ok →
        (kill_process outcome pid).1 = (false, "Failed to kill process " ++ pid)) := by
  refine ⟨rfl, ?_, ?_⟩ <;> cases outcome <;> simp [kill_process]

/-- Witness for `kill_process_result_shape` at a concrete input. -/
theorem kill_process_result_shape_witness :
    (kill_process KillOutcome.permissionDenied "7").2 = ["kill " ++ "7"]
    ∧ KillOutcome.permissionDenied ≠ KillOutcome.ok
    ∧ (kill_process KillOutcome.permissionDenied "7").1
        = (false, "Failed to kill process " ++ "7") :=
  ⟨(kill_process_result_shape KillOutcome.permissionDenied "7").1, by decide,
   (kill_process_result_shape KillOutcome.permissionDenied "7").2.2 (by decide)⟩

/-! ## Claim C9 (runtime locator) -/

/-- C9: `_find_wine` searches the configured path (only when set, non-empty
and existing), then the system search path, then the fixed well-known
locations, returning the first hit; it returns `none` exactly when all
three steps fail.  It is a pure function of its inputs (the type carries no
state). -/
theorem find_wine_search_order (cfg : Option String) (exf : String → Bool)
    (whichW : Option String) :
    (∀ c, cfg = some c → c ≠ "" → exf c = true → find_wine cfg exf whichW = some c)
    ∧ (cfgHit cfg exf = none → ∀ w, whichW = some w → find_wine cfg exf whichW = some w)
    ∧ (cfgHit cfg exf = none → whichW = none →
        find_wine cfg exf whichW = commonWinePaths.find? exf)
    ∧ (find_wine cfg exf whichW = none ↔
        cfgHit cfg exf = none ∧ whichW = none ∧ ∀ p ∈ commonWinePaths, exf p = false) := by
  refine ⟨?_, ?_, ?_, ?_⟩
  · intro c hc hne hex
    simp [find_wine, cfgHit, hc, hne, hex]
  · intro hch w hw
    simp [find_wine, hch, hw]
  · intro hch hw
    simp [find_wine, hch, hw]
  · cases hch : cfgHit cfg exf with
    | some c => simp [find_wine, hch]
    | none =>
      cases hw : whichW with
      | some w => simp [find_wine, hch, hw]
      | none =>
        simp only [find_wine, hch, hw]
        rw [List.find?_eq_none]
        simp [Bool.not_eq_true]

/-- Witness for `find_wine_search_order` at a concrete input: the
configured path wins when it exists. -/
theorem find_wine_search_order_witness :
    (some "/cfg/wine" : Option String) = some "/cfg/wine" ∧ "/cfg/wine" ≠ ""
    ∧ (fun s => s == "/cfg/wine") "/cfg/wine" = true
    ∧ find_wine (some "/cfg/wine") (fun s => s == "/cfg/wine") none = some "/cfg/wine" :=
  ⟨rfl, by decide, by decide,
   (find_wine_search_order (some "/cfg/wine") (fun s => s == "/cfg/wine") none).1
     "/cfg/wine" rfl (by decide) (by decide)⟩

/-! ## Claim C2 (truncated cache archive) -/

/-- One call of `download_wine_version` with a truncated cache archive for a
known variant: the cached file is reused (never re-fetched), extraction
fails, and the corrupt cache file is still there afterwards. -/
theorem download_wine_truncated_step (net : FileData) (fs : FS) (variant version url : String)
    (es : List (List String × String))
    (hurl : wineDownloadUrl variant version = some url)
    (htrunc : fs.readFile (cacheWineDir ++ [variant ++ "-" ++ version ++ ".tar.gz"])
        = some (FileData.archive es true)) :
    (download_wine net fs variant version).2.1 = false
    ∧ (download_wine net fs variant version).1.readFile
        (cacheWineDir ++ [variant ++ "-" ++ version ++ ".tar.gz"])
        = some (FileData.archive es true) := by
  have hlen : cacheWineDir.length < (cacheWineDir ++ [variant ++ "-" ++ version ++ ".tar.gz"]).length := by
    simp
  have h1 : (fs.mkdirp cacheWineDir).readFile
      (cacheWineDir ++ [variant ++ "-" ++ version ++ ".tar.gz"])
      = some (FileData.archive es true) := by
    rw [FS.readFile_mkdirp_of_longer fs cacheWineDir _ hlen]; exact htrunc
  have hex : (fs.mkdirp cacheWineDir).pathExists
      (cacheWineDir ++ [variant ++ "-" ++ version ++ ".tar.gz"]) = true :=
    FS.pathExists_of_readFile _ _ _ h1
  have h2 : ((fs.mkdirp cacheWineDir).mkdirp
        (wineVersionsDir ++ [variant ++ "-" ++ version])).readFile
      (cacheWineDir ++ [variant ++ "-" ++ version ++ ".tar.gz"])
      = some (FileData.archive es true) := by
    rw [FS.readFile, FS.lookup_mkdirp]
    rw [if_neg]
    · exact h1
    · rintro ⟨hmem, -⟩
      exact cacheWine_not_ancestor_inst _ _ hmem
  constructor
  · simp [download_wine, hurl, hex, h1]
  · simp [download_wine, hurl, hex, h1, h2]

/-- C2, counterexample: with a pre-populated but TRUNCATED cache archive,
`download("staging","9.0")` fails on the first call and fails again on the
second call — the corrupt cache is reused, not re-fetched, contradicting the
claim that the second call succeeds. -/
theorem c2_truncated_cache_counterexample :
    (download_wine (FileData.archive [(["wine-staging-9.0", "bin", "wine"], "elf")] false)
        ((FS.empty.mkdirp cacheWineDir).writeFile (cacheWineDir ++ ["staging-9.0.tar.gz"])
          (FileData.archive [] true))
        "staging" "9.0").2.1 = false
    ∧ (download_wine (FileData.archive [(["wine-staging-9.0", "bin", "wine"], "elf")] false)
        (download_wine (FileData.archive [(["wine-staging-9.0", "bin", "wine"], "elf")] false)
          ((FS.empty.mkdirp cacheWineDir).writeFile (cacheWineDir ++ ["staging-9.0.tar.gz"])
            (FileData.archive [] true))
          "staging" "9.0").1
        "staging" "9.0").2.1 = false := by
  exact ⟨rfl, rfl⟩

/-- C2, amended: both download pipelines treat a pre-existing cache archive
as complete on FILE EXISTENCE ALONE.  With a truncated cached archive the
wine-version download fails, leaves the corrupt cache in place, and a second
call fails the same way instead of re-fetching; the analogous DXVK install
likewise reuses the truncated cache and fails. -/
theorem download_truncated_cache_never_refetched (net : FileData) (fs : FS)
    (variant version url : String) (es : List (List String × String)) (pfx : List String)
    (dv : String) :
    (wineDownloadUrl variant version = some url →
      fs.readFile (cacheWineDir ++ [variant ++ "-" ++ version ++ ".tar.gz"])
          = some (FileData.archive es true) →
      (download_wine net fs variant version).2.1 = false
      ∧ (download_wine net fs variant version).1.readFile
          (cacheWineDir ++ [variant ++ "-" ++ version ++ ".tar.gz"])
          = some (FileData.archive es true)
      ∧ (download_wine net (download_wine net fs variant version).1 variant version).2.1
          = false)
    ∧ (fs.pathExists pfx = true →
      fs.pathExists (pfx ++ ["drive_c", "windows", "system32"]) = true →
      fs.readFile (dxvkCacheDir ++ ["dxvk-" ++ dv ++ ".tar.gz"])
          = some (FileData.archive es true) →
      fs.pathExists (dxvkCacheDir ++ ["dxvk-" ++ dv]) = false →
      (install_dxvk net fs pfx dv).2.1 = false) := by
  constructor
  · intro hurl htrunc
    have hstep := download_wine_truncated_step net fs variant version url es hurl htrunc
    have hstep2 := download_wine_truncated_step net (download_wine net fs variant version).1
      variant version url es hurl hstep.2
    exact ⟨hstep.1, hstep.2, hstep2.1⟩
  · intro hpfx hsys32 htrunc hnoext
    have hlen : dxvkCacheDir.length < (dxvkCacheDir ++ ["dxvk-" ++ dv ++ ".tar.gz"]).length := by
      simp
    have hlen2 : dxvkCacheDir.length < (dxvkCacheDir ++ ["dxvk-" ++ dv]).length := by
      simp
    have h1 : (fs.mkdirp dxvkCacheDir).readFile (dxvkCacheDir ++ ["dxvk-" ++ dv ++ ".tar.gz"])
        = some (FileData.archive es true) := by
      rw [FS.readFile_mkdirp_of_longer fs dxvkCacheDir _ hlen]; exact htrunc
    have hex : (fs.mkdirp dxvkCacheDir).pathExists (dxvkCacheDir ++ ["dxvk-" ++ dv ++ ".tar.gz"])
        = true := FS.pathExists_of_readFile _ _ _ h1
    have hnx : (fs.mkdirp dxvkCacheDir).pathExists (dxvkCacheDir ++ ["dxvk-" ++ dv]) = false := by
      rw [FS.pathExists, FS.lookup_mkdirp_of_longer fs dxvkCacheDir _ hlen2]
      rw [FS.pathExists] at hnoext
      exact hnoext
    simp [install_dxvk, hpfx, hsys32, hex, hnx, h1]

/-- Witness for `download_truncated_cache_never_refetched` at a concrete
input (both implication groups discharged). -/
theorem download_truncated_cache_never_refetched_witness :
    (wineDownloadUrl "staging" "9.0"
        = some "https://github.com/wine-staging/wine-staging/archive/v9.0.tar.gz"
      ∧ ((FS.empty.mkdirp cacheWineDir).writeFile (cacheWineDir ++ ["staging-9.0.tar.gz"])
          (FileData.archive [] true)).readFile
          (cacheWineDir ++ ["staging" ++ "-" ++ "9.0" ++ ".tar.gz"])
          = some (FileData.archive [] true)
      ∧ (download_wine (FileData.text "fresh")
          ((FS.empty.mkdirp cacheWineDir).writeFile (cacheWineDir ++ ["staging-9.0.tar.gz"])
            (FileData.archive [] true))
          "staging" "9.0").2.1 = false)
    ∧ (((FS.empty.mkdirp (["p"] ++ ["drive_c", "windows", "system32"])).writeFile
          (dxvkCacheDir ++ ["dxvk-2.2.tar.gz"]) (FileData.archive [] true)).pathExists ["p"]
          = true
      ∧ (install_dxvk (FileData.text "fresh")
          ((FS.empty.mkdirp (["p"] ++ ["drive_c", "windows", "system32"])).writeFile
            (dxvkCacheDir ++ ["dxvk-2.2.tar.gz"]) (FileData.archive [] true))
          ["p"] "2.2").2.1 = false) :=
  ⟨⟨rfl, rfl,
    ((download_truncated_cache_never_refetched (FileData.text "fresh")
        ((FS.empty.mkdirp cacheWineDir).writeFile (cacheWineDir ++ ["staging-9.0.tar.gz"])
          (FileData.archive [] true))
        "staging" "9.0" "https://github.com/wine-staging/wine-staging/archive/v9.0.tar.gz"
        [] ["p"] "2.2").1 rfl rfl).1⟩,
   ⟨rfl,
    (download_truncated_cache_never_refetched (FileData.text "fresh")
        ((FS.empty.mkdirp (["p"] ++ ["drive_c", "windows", "system32"])).writeFile
          (dxvkCacheDir ++ ["dxvk-2.2.tar.gz"]) (FileData.archive [] true))
        "staging" "9.0" "https://github.com/wine-staging/wine-staging/archive/v9.0.tar.gz"
        [] ["p"] "2.2").2 rfl rfl rfl rfl⟩⟩

/-! ## Version-manager lemmas (C5, C6, C10) -/

theorem countActive_append (a b : List WineVersion) :
    countActive (a ++ b) = countActive a + countActive b := by
  simp [countActive, List.filter_append]

theorem mem_dlEntries_elim (fs : FS) (v : WineVersion) (h : v ∈ dlEntries fs) :
    ∃ nm, v = dlEntry nm ∧ nm ∈ fs.childDirs wineVersionsDir
      ∧ fs.pathExists (wineVersionsDir ++ [nm, "bin", "wine"]) = true := by
  simp only [dlEntries, List.mem_filterMap] at h
  rcases h with ⟨nm, hnm, hv⟩
  by_cases hc : fs.pathExists (wineVersionsDir ++ [nm, "bin", "wine"]) = true
  · rw [if_pos hc] at hv
    exact ⟨nm, (Option.some.inj hv).symm, hnm, hc⟩
  · rw [if_neg hc] at hv
    simp at hv

theorem is_active_of_mem_dlEntries (fs : FS) (v : WineVersion) (h : v ∈ dlEntries fs) :
    v.is_active = false := by
  rcases mem_dlEntries_elim fs v h with ⟨nm, hv, -, -⟩
  rw [hv]; rfl

theorem countActive_dlEntries (fs : FS) : countActive (dlEntries fs) = 0 := by
  rw [countActive, List.length_eq_zero, List.filter_eq_nil_iff]
  intro v hv
  simp [is_active_of_mem_dlEntries fs v hv]

theorem countActive_sysEntries (host : HostEnv) : countActive (sysEntries host) ≤ 1 := by
  cases h : host.whichWine <;> simp [sysEntries, h, countActive, List.filter]

theorem countActive_scanVersions (host : HostEnv) (fs : FS) :
    countActive (scanVersions host fs) ≤ 1 := by
  rw [scanVersions, countActive_append]
  have h1 := countActive_sysEntries host
  have h2 := countActive_dlEntries fs
  omega

theorem countActive_map_clear (vs : List WineVersion) :
    countActive (vs.map (fun w => { w with is_active := false })) = 0 := by
  induction vs with
  | nil => rfl
  | cons v vs ih => simp [countActive, List.filter_cons, ih]

theorem countActive_setActiveList (vs : List WineVersion) (i : Nat) :
    countActive (setActiveList vs i) ≤ 1 := by
  induction vs generalizing i with
  | nil => simp [setActiveList, countActive, List.filter]
  | cons v vs ih =>
    cases i with
    | zero =>
      have h0 := countActive_map_clear vs
      rw [countActive, List.length_eq_zero] at h0
      simp [setActiveList, countActive, List.filter_cons, h0]
    | succ j =>
      simpa [setActiveList, countActive, List.filter_cons] using ih j

theorem getD_map_clear (vs : List WineVersion) (k : Nat) :
    ((vs.map (fun w => { w with is_active := false })).getD k dummyWV).is_active = false := by
  induction vs generalizing k with
  | nil => simp [dummyWV]
  | cons v vs ih =>
    cases k with
    | zero => rfl
    | succ k2 => simpa [List.getD_cons_succ] using ih k2

theorem setActiveList_getD_of_ne (vs : List WineVersion) (i j : Nat) (h : j ≠ i) :
    ((setActiveList vs i).getD j dummyWV).is_active = false := by
  induction vs generalizing i j with
  | nil => simp [setActiveList, dummyWV]
  | cons v vs ih =>
    cases i with
    | zero =>
      cases j with
      | zero => exact absurd rfl h
      | succ k =>
        simpa [setActiveList, List.getD_cons_succ] using getD_map_clear vs k
    | succ i2 =>
      cases j with
      | zero => simp [setActiveList]
      | succ k =>
        simpa [setActiveList, List.getD_cons_succ] using ih i2 k (by omega)

theorem vmSetActive_versions (s : VMState) (i : Nat) :
    ((vmSetActive s i).1).versions = setActiveList s.versions i := by
  rw [vmSetActive]
  cases s.versions.get? i <;> rfl

theorem countActive_vmStep (host : HostEnv) (s : VMState) (op : VMOp)
    (h : countActive s.versions ≤ 1) : countActive ((vmStep host s op).versions) ≤ 1 := by
  cases op with
  | rescan => simpa [vmStep] using countActive_scanVersions host s.fs
  | setActive i =>
    rw [vmStep, vmSetActive_versions]
    exact countActive_setActiveList _ _
  | download variant version net =>
    rw [vmStep, vmDownload]
    by_cases hr : (download_wine net s.fs variant version).2.1 = true
    · simp [hr, countActive_scanVersions]
    · simp [hr, h]
  | deleteV v =>
    rw [vmStep, vmDelete]
    by_cases h1 : v.variant = "system"
    · simpa [h1] using h
    · by_cases h2 : v.is_active
      · simp [h1, h2, h]
      · by_cases h3 : s.fs.pathExists v.path
        · simp [h1, h2, h3, countActive_scanVersions]
        · simp [h1, h2, h3, h]

theorem mem_sysEntries_elim (host : HostEnv) (w : WineVersion) (h : w ∈ sysEntries host) :
    ∃ wp, host.whichWine = some wp
      ∧ w = ⟨sysVerString host, "system", wp.dropLast, true⟩ := by
  cases hw : host.whichWine with
  | none => simp [sysEntries, hw] at h
  | some wp =>
    simp only [sysEntries, hw, List.mem_singleton] at h
    exact ⟨wp, rfl, h⟩

/-! ## Claim C5 (at most one active version) -/

/-- C5: at most one `WineVersion` in the manager list is active at every
point of the lifetime — after construction, and after any of rescan,
`set_active_version`, `download_wine_version`, `delete_version` (each
preserves the bound); moreover `set_active_version` clears the flag of
every element other than the one being activated. -/
theorem vm_at_most_one_active (host : HostEnv) (fs : FS) (s : VMState) (op : VMOp)
    (vs : List WineVersion) (i j : Nat) :
    countActive (vmInit host fs).versions ≤ 1
    ∧ (countActive s.versions ≤ 1 → countActive ((vmStep host s op).versions) ≤ 1)
    ∧ countActive (setActiveList vs i) ≤ 1
    ∧ (j ≠ i → ((setActiveList vs i).getD j dummyWV).is_active = false) :=
  ⟨by simpa [vmInit] using countActive_scanVersions host (fs.mkdirp wineVersionsDir),
   countActive_vmStep host s op,
   countActive_setActiveList vs i,
   setActiveList_getD_of_ne vs i j⟩

/-- Witness for `vm_at_most_one_active` at a concrete input. -/
theorem vm_at_most_one_active_witness :
    countActive (vmInit ⟨some ["usr", "bin", "wine"], some "9.0"⟩ FS.empty).versions ≤ 1
    ∧ countActive (vmInit ⟨some ["usr", "bin", "wine"], some "9.0"⟩ FS.empty).versions ≤ 1
    ∧ countActive ((vmStep ⟨some ["usr", "bin", "wine"], some "9.0"⟩
        (vmInit ⟨some ["usr", "bin", "wine"], some "9.0"⟩ FS.empty) VMOp.rescan).versions) ≤ 1
    ∧ (1 : Nat) ≠ 0
    ∧ ((setActiveList (vmInit ⟨some ["usr", "bin", "wine"], some "9.0"⟩ FS.empty).versions
        0).getD 1 dummyWV).is_active = false :=
  ⟨(vm_at_most_one_active ⟨some ["usr", "bin", "wine"], some "9.0"⟩ FS.empty
      (vmInit ⟨some ["usr", "bin", "wine"], some "9.0"⟩ FS.empty) VMOp.rescan
      (vmInit ⟨some ["usr", "bin", "wine"], some "9.0"⟩ FS.empty).versions 0 1).1,
   by decide,
   (vm_at_most_one_active ⟨some ["usr", "bin", "wine"], some "9.0"⟩ FS.empty
      (vmInit ⟨some ["usr", "bin", "wine"], some "9.0"⟩ FS.empty) VMOp.rescan
      (vmInit ⟨some ["usr", "bin", "wine"], some "9.0"⟩ FS.empty).versions 0 1).2.1
     (by decide),
   by decide,
   (vm_at_most_one_active ⟨some ["usr", "bin", "wine"], some "9.0"⟩ FS.empty
      (vmInit ⟨some ["usr", "bin", "wine"], some "9.0"⟩ FS.empty) VMOp.rescan
      (vmInit ⟨some ["usr", "bin", "wine"], some "9.0"⟩ FS.empty).versions 0 1).2.2.2
     (by decide)⟩

/-! ## Claim C10 (re-scan resets the active flag) -/

/-- C10: every re-scan rebuilds the list so that only the system-discovered
runtime (present exactly when `shutil.which` finds wine) carries
`is_active = true` and every directory-scanned version is inactive; the
states produced at construction and by successful `download_wine_version` /
`delete_version` all take their version list from such a re-scan of the
resulting filesystem, so an active flag chosen by `set_active_version`
never survives a re-scan. -/
theorem rescan_overrides_active_flags (host : HostEnv) (fs : FS) (s : VMState)
    (variant version : String) (net : FileData) (v w : WineVersion) (wp : List String) :
    (w ∈ scanVersions host fs → w.is_active = true → w.variant = "system")
    ∧ (host.whichWine = some wp →
        (⟨sysVerString host, "system", wp.dropLast, true⟩ : WineVersion)
          ∈ scanVersions host fs)
    ∧ (host.whichWine = none → w ∈ scanVersions host fs → w.is_active = false)
    ∧ ((vmInit host fs).versions = scanVersions host ((vmInit host fs).fs))
    ∧ ((vmDownload host s variant version net).2.1 = true →
        (vmDownload host s variant version net).1.versions
          = scanVersions host ((vmDownload host s variant version net).1.fs))
    ∧ ((vmDelete host s v).2.1 = true →
        (vmDelete host s v).1.versions = scanVersions host ((vmDelete host s v).1.fs)) := by
  refine ⟨?_, ?_, ?_, rfl, ?_, ?_⟩
  · intro hw hact
    rcases List.mem_append.mp hw with hsys | hdl
    · rcases mem_sysEntries_elim host w hsys with ⟨wp2, -, hweq⟩
      rw [hweq]
    · rw [is_active_of_mem_dlEntries fs w hdl] at hact
      simp at hact
  · intro hwp
    apply List.mem_append.mpr
    left
    simp [sysEntries, hwp]
  · intro hnone hw
    rcases List.mem_append.mp hw with hsys | hdl
    · simp [sysEntries, hnone] at hsys
    · exact is_active_of_mem_dlEntries fs w hdl
  · intro hok
    rw [vmDownload] at hok ⊢
    by_cases hr : (download_wine net s.fs variant version).2.1 = true
    · simp [hr]
    · simp [hr] at hok
  · intro hok
    rw [vmDelete] at hok ⊢
    by_cases h1 : v.variant = "system"
    · simp [h1] at hok
    · by_cases h2 : v.is_active
      · simp [h1, h2] at hok
      · by_cases h3 : s.fs.pathExists v.path
        · simp [h1, h2, h3]
        · simp [h1, h2, h3] at hok

/-- Witness for `rescan_overrides_active_flags` at a concrete input. -/
theorem rescan_overrides_active_flags_witness :
    ((⟨some ["usr", "bin", "wine"], some "9.0"⟩ : HostEnv).whichWine = some ["usr", "bin", "wine"])
    ∧ (⟨sysVerString ⟨some ["usr", "bin", "wine"], some "9.0"⟩, "system",
        (["usr", "bin", "wine"] : List String).dropLast, true⟩ : WineVersion)
        ∈ scanVersions ⟨some ["usr", "bin", "wine"], some "9.0"⟩ FS.empty
    ∧ ((vmDelete ⟨some ["usr", "bin", "wine"], some "9.0"⟩
          (vmInit ⟨some ["usr", "bin", "wine"], some "9.0"⟩ FS.empty) dummyWV).2.1 = true →
        (vmDelete ⟨some ["usr", "bin", "wine"], some "9.0"⟩
          (vmInit ⟨some ["usr", "bin", "wine"], some "9.0"⟩ FS.empty) dummyWV).1.versions
          = scanVersions ⟨some ["usr", "bin", "wine"], some "9.0"⟩
              ((vmDelete ⟨some ["usr", "bin", "wine"], some "9.0"⟩
                (vmInit ⟨some ["usr", "bin", "wine"], some "9.0"⟩ FS.empty) dummyWV).1.fs)) :=
  ⟨rfl,
   (rescan_overrides_active_flags ⟨some ["usr", "bin", "wine"], some "9.0"⟩ FS.empty
      (vmInit ⟨some ["usr", "bin", "wine"], some "9.0"⟩ FS.empty) "staging" "9.0"
      (FileData.text "") dummyWV dummyWV ["usr", "bin", "wine"]).2.1 rfl,
   (rescan_overrides_active_flags ⟨some ["usr", "bin", "wine"], some "9.0"⟩ FS.empty
      (vmInit ⟨some ["usr", "bin", "wine"], some "9.0"⟩ FS.empty) "staging" "9.0"
      (FileData.text "") dummyWV dummyWV ["usr", "bin", "wine"]).2.2.2.2.2⟩

/-! ## Claim C6 (delete_version) -/

/-- C6: `delete_version` on the currently-active version always fails with
an InvalidState-kind refusal (the system-variant guard or the active guard,
both checked before anything is removed) and changes nothing; on a
non-active, non-system version taken from the scanned list it succeeds,
removes the version install directory, and after the re-scan no version
with that variant and path remains in the list. -/
theorem vmDelete_semantics (host : HostEnv) (s : VMState) (v : WineVersion) :
    (v.is_active = true →
      vmDelete host s v = (s, false,
        if v.variant = "system" then "Cannot delete system Wine"
        else "Cannot delete active Wine version"))
    ∧ (s.versions = scanVersions host s.fs → v ∈ s.versions → v.variant ≠ "system" →
       v.is_active = false →
      (vmDelete host s v).2.1 = true
      ∧ (vmDelete host s v).1.fs.pathExists v.path = false
      ∧ ∀ w ∈ (vmDelete host s v).1.versions,
          ¬ (w.variant = v.variant ∧ w.path = v.path)) := by
  constructor
  · intro hact
    by_cases h1 : v.variant = "system"
    · simp [vmDelete, h1]
    · simp [vmDelete, h1, hact]
  · intro hsync hv hvar hact
    rw [hsync] at hv
    rcases List.mem_append.mp hv with hsys | hdl
    · rcases mem_sysEntries_elim host v hsys with ⟨wp, -, hveq⟩
      rw [hveq] at hvar
      simp at hvar
    · rcases mem_dlEntries_elim s.fs v hdl with ⟨nm, hveq, hnm, hbin⟩
      have hpath : v.path = wineVersionsDir ++ [nm] := by rw [hveq]; rfl
      have hdir : s.fs.lookup (wineVersionsDir ++ [nm]) = some FsNode.dir :=
        (mem_childDirs_iff s.fs wineVersionsDir nm).mp hnm
      have hpe : s.fs.pathExists v.path = true := by
        rw [hpath, FS.pathExists, hdir]; rfl
      have hres : vmDelete host s v =
          (({ s with
              fs := s.fs.removeTree v.path,
              versions := scanVersions host (s.fs.removeTree v.path) } : VMState), true,
           "Deleted " ++ wvStr v) := by
        simp [vmDelete, hvar, hact, hpe]
      refine ⟨by rw [hres], ?_, ?_⟩
      · rw [hres]
        show (s.fs.removeTree v.path).pathExists v.path = false
        rw [FS.pathExists, FS.lookup_removeTree, if_pos (listIsPre_refl v.path)]
        rfl
      · intro w hw hcontra
        rcases hcontra with ⟨hwvar, hwpath⟩
        rw [hres] at hw
        rcases List.mem_append.mp hw with hsys2 | hdl2
        · rcases mem_sysEntries_elim host w hsys2 with ⟨wp2, -, hweq⟩
          rw [hweq] at hwvar
          exact hvar hwvar.symm
        · rcases mem_dlEntries_elim _ w hdl2 with ⟨nm2, hweq2, hnm2, -⟩
          have hwp2 : w.path = wineVersionsDir ++ [nm2] := by rw [hweq2]; rfl
          have hdir2 := (mem_childDirs_iff _ wineVersionsDir nm2).mp hnm2
          rw [hwp2] at hwpath
          rw [hwpath] at hdir2
          rw [FS.lookup_removeTree, if_pos (listIsPre_refl v.path)] at hdir2
          simp at hdir2

/-- Witness for `vmDelete_semantics`, exercising both halves at concrete
inputs: refusing to delete an active (system) version, and deleting a
scanned staging version. -/
theorem vmDelete_semantics_witness :
    ((⟨"9.0", "system", ["usr", "bin"], true⟩ : WineVersion).is_active = true
      ∧ vmDelete ⟨some ["usr", "bin", "wine"], some "9.0"⟩
          (vmInit ⟨some ["usr", "bin", "wine"], some "9.0"⟩ FS.empty)
          ⟨"9.0", "system", ["usr", "bin"], true⟩
        = (vmInit ⟨some ["usr", "bin", "wine"], some "9.0"⟩ FS.empty, false,
           "Cannot delete system Wine"))
    ∧ ((vmDelete ⟨none, none⟩
          (vmInit ⟨none, none⟩
            ((FS.empty.mkdirp (wineVersionsDir ++ ["staging-9.0", "bin"])).writeFile
              (wineVersionsDir ++ ["staging-9.0", "bin", "wine"]) (FileData.text "elf")))
          (dlEntry "staging-9.0")).2.1 = true
      ∧ (vmDelete ⟨none, none⟩
          (vmInit ⟨none, none⟩
            ((FS.empty.mkdirp (wineVersionsDir ++ ["staging-9.0", "bin"])).writeFile
              (wineVersionsDir ++ ["staging-9.0", "bin", "wine"]) (FileData.text "elf")))
          (dlEntry "staging-9.0")).1.fs.pathExists (dlEntry "staging-9.0").path = false
      ∧ ∀ w ∈ (vmDelete ⟨none, none⟩
          (vmInit ⟨none, none⟩
            ((FS.empty.mkdirp (wineVersionsDir ++ ["staging-9.0", "bin"])).writeFile
              (wineVersionsDir ++ ["staging-9.0", "bin", "wine"]) (FileData.text "elf")))
          (dlEntry "staging-9.0")).1.versions,
          ¬ (w.variant = (dlEntry "staging-9.0").variant
             ∧ w.path = (dlEntry "staging-9.0").path)) := by
  constructor
  · constructor
    · rfl
    · have := (vmDelete_semantics ⟨some ["usr", "bin", "wine"], some "9.0"⟩
        (vmInit ⟨some ["usr", "bin", "wine"], some "9.0"⟩ FS.empty)
        ⟨"9.0", "system", ["usr", "bin"], true⟩).1 rfl
      simpa using this
  · exact (vmDelete_semantics ⟨none, none⟩
      (vmInit ⟨none, none⟩
        ((FS.empty.mkdirp (wineVersionsDir ++ ["staging-9.0", "bin"])).writeFile
          (wineVersionsDir ++ ["staging-9.0", "bin", "wine"]) (FileData.text "elf")))
      (dlEntry "staging-9.0")).2 rfl (by decide) (by decide) rfl

/-! ## Claim C3 (apply_template) -/

/-- C3, code bug: `apply_template` passes `template.windows_version`
POSITIONALLY as `create_prefix`'s `path` parameter, so `path.exists()` is
evaluated on a `str`: with the runtime available the call raises
`AttributeError` before any component is attempted, and with the runtime
unavailable creation fails, so the claim's premise (creation succeeds
inside `apply_template`) is unsatisfiable.  Independently, the winetricks
block is gated on a progress callback being supplied (line 185). -/
theorem apply_template_always_fails_concrete :
    apply_template ⟨true, RunOutcome.ok, ["root"]⟩ true false [] FS.empty "p1" "gaming"
        (FileData.archive [] false) = Except.error PyExc.attributeError
    ∧ apply_template ⟨false, RunOutcome.ok, ["root"]⟩ true true [] FS.empty "p1" "gaming"
        (FileData.archive [] false)
      = Except.ok ⟨FS.empty, false, "Wine is not installed or not accessible", [], false⟩ :=
  ⟨rfl, rfl⟩

/-! ## Substring lemmas (C7) -/

theorem charsPre_iff (a b : List Char) : charsPre a b = true ↔ ∃ t, a ++ t = b := by
  induction a generalizing b with
  | nil => simp [charsPre]
  | cons x xs ih =>
    cases b with
    | nil => simp [charsPre]
    | cons y ys =>
      simp only [charsPre, Bool.and_eq_true, beq_iff_eq, ih, List.cons_append,
        List.cons.injEq]
      constructor
      · rintro ⟨hx, t, ht⟩; exact ⟨t, hx, ht⟩
      · rintro ⟨t, hx, ht⟩; exact ⟨hx, t, ht⟩

theorem charsInfix_iff (pat l : List Char) :
    charsInfix pat l = true ↔ ∃ x y, x ++ pat ++ y = l := by
  induction l with
  | nil =>
    simp only [charsInfix, charsPre_iff]
    constructor
    · rintro ⟨t, ht⟩
      exact ⟨[], t, by simpa using ht⟩
    · rintro ⟨x, y, hxy⟩
      rcases List.append_eq_nil.mp ((List.append_assoc x pat y) ▸ hxy) with ⟨hx, hrest⟩
      rcases List.append_eq_nil.mp hrest with ⟨hp, hy⟩
      exact ⟨[], by simp [hp]⟩
  | cons c cs ih =>
    simp only [charsInfix, Bool.or_eq_true, charsPre_iff, ih]
    constructor
    · rintro (⟨t, ht⟩ | ⟨x, y, hxy⟩)
      · exact ⟨[], t, by simpa using ht⟩
      · exact ⟨c :: x, y, by simp [hxy]⟩
    · rintro ⟨x, y, hxy⟩
      cases x with
      | nil => exact Or.inl ⟨y, by simpa using hxy⟩
      | cons x0 xs =>
        right
        refine ⟨xs, y, ?_⟩
        simpa using List.cons.inj hxy |>.2

theorem strContains_append_of (c x pat : String) (h : strContains c pat = true) :
    strContains (c ++ x) pat = true := by
  rw [strContains, charsInfix_iff] at h ⊢
  rcases h with ⟨a, b, hab⟩
  refine ⟨a, b ++ x.data, ?_⟩
  rw [String.data_append, ← hab]
  simp

theorem strContains_overrideBlob (c : String) (dll : String) :
    strContains (c ++ overrideBlob dll) (overrideLine dll) = true := by
  rw [strContains, charsInfix_iff]
  refine ⟨c.data ++ ("\n[Software\\\\Wine\\\\DllOverrides]\n").data, ("\n").data, ?_⟩
  rw [overrideBlob, String.data_append, String.data_append, String.data_append]
  simp

theorem strContains_overrideStep_self (c : String) (dll : String) :
    strContains (overrideStep c dll) (overrideLine dll) = true := by
  rw [overrideStep]
  by_cases h : strContains c (overrideLine dll) = true
  · simp [h]
  · simp only [h, if_false, Bool.false_eq_true]
    exact strContains_overrideBlob c dll

theorem strContains_overrideStep_of (c : String) (dll dll2 : String)
    (h : strContains c (overrideLine dll2) = true) :
    strContains (overrideStep c dll) (overrideLine dll2) = true := by
  rw [overrideStep]
  by_cases hc : strContains c (overrideLine dll) = true
  · simpa [hc] using h
  · simp only [hc, if_false, Bool.false_eq_true]
    exact strContains_append_of c (overrideBlob dll) (overrideLine dll2) h

theorem strContains_foldl_overrideStep_of (dlls : List String) (c : String) (dll : String)
    (h : strContains c (overrideLine dll) = true) :
    strContains (dlls.foldl overrideStep c) (overrideLine dll) = true := by
  induction dlls generalizing c with
  | nil => exact h
  | cons d rest ih =>
    rw [List.foldl_cons]
    exact ih _ (strContains_overrideStep_of c d dll h)

theorem strContains_foldl_overrideStep (dlls : List String) (c : String) (dll : String)
    (h : dll ∈ dlls) :
    strContains (dlls.foldl overrideStep c) (overrideLine dll) = true := by
  induction dlls generalizing c with
  | nil => simp at h
  | cons d rest ih =>
    rw [List.foldl_cons]
    rcases List.mem_cons.mp h with hd | hd
    · subst hd
      exact strContains_foldl_overrideStep_of rest _ dll (strContains_overrideStep_self c dll)
    · exact ih _ hd

theorem foldl_overrideStep_noop (dlls : List String) (c : String)
    (h : ∀ dll ∈ dlls, strContains c (overrideLine dll) = true) :
    dlls.foldl overrideStep c = c := by
  induction dlls with
  | nil => rfl
  | cons d rest ih =>
    rw [List.foldl_cons, overrideStep, if_pos (h d (by simp))]
    exact ih (fun dll hdll => h dll (by simp [hdll]))

/-! ## Path disjointness and preservation lemmas (C7) -/

theorem disjoint_paths (a b : List String) (ha : listIsPre a b = false)
    (hb : listIsPre b a = false) (x y : List String) : a ++ x ≠ b ++ y := by
  intro h
  rcases pre_total_of_append_eq a b x y h with hc | hc
  · rw [hc] at ha; simp at ha
  · rw [hc] at hb; simp at hb

theorem not_anc_of_disjoint (a b l m : List String) (ha : listIsPre a b = false)
    (hb : listIsPre b a = false) (p : List String) (hp : ∃ t, p ++ t = b ++ m) :
    a ++ l ∉ ancestors p := by
  intro hmem
  rcases mem_ancestors_elim p _ hmem with ⟨t1, ht1, -⟩
  rcases hp with ⟨t2, ht2⟩
  have hcomb : (a ++ l) ++ (t1 ++ t2) = b ++ m := by
    rw [← List.append_assoc, ht1, ht2]
  rw [List.append_assoc] at hcomb
  exact disjoint_paths a b ha hb _ m hcomb

theorem FS.lookup_mkdirp_of_not_anc (fs : FS) (p q : List String) (h : q ∉ ancestors p) :
    (fs.mkdirp p).lookup q = fs.lookup q := by
  rw [FS.lookup_mkdirp]
  simp [h]

theorem FS.readFile_writeFile_ne (fs : FS) (p : List String) (d : FileData) (q : List String)
    (h : q ≠ p) : (fs.writeFile p d).readFile q = fs.readFile q := by
  rw [FS.readFile, FS.readFile, FS.lookup_writeFile_ne fs p d q h]

theorem FS.pathExists_writeFile_of (fs : FS) (p : List String) (d : FileData)
    (q : List String) (h : fs.pathExists q = true) :
    (fs.writeFile p d).pathExists q = true := by
  rw [FS.pathExists, FS.lookup_writeFile]
  by_cases hq : q = p
  · simp [hq]
  · rw [if_neg hq]
    rw [FS.pathExists] at h
    exact h

theorem FS.pathExists_mkdirp_of (fs : FS) (p q : List String) (h : fs.pathExists q = true) :
    (fs.mkdirp p).pathExists q = true := by
  rw [FS.pathExists] at h ⊢
  rw [FS.lookup_mkdirp]
  cases hl : fs.lookup q with
  | none => rw [hl] at h; simp at h
  | some n => by_cases hm : q ∈ ancestors p <;> simp [hm, hl]

theorem FS.pathExists_mkdirp_of_mem (fs : FS) (p q : List String) (h : q ∈ ancestors p) :
    (fs.mkdirp p).pathExists q = true := by
  rw [FS.pathExists, FS.lookup_mkdirp]
  by_cases hl : fs.lookup q = none
  · simp [h, hl]
  · cases hx : fs.lookup q with
    | none => exact absurd hx hl
    | some n => simp [hx]

theorem FS.extractTo_cons (fs : FS) (base : List String) (e : List String × String)
    (es : List (List String × String)) :
    fs.extractTo base (e :: es)
      = ((fs.mkdirp (base ++ e.1).dropLast).writeFile (base ++ e.1)
          (FileData.text e.2)).extractTo base es := rfl

theorem FS.pathExists_extractTo_of (fs : FS) (base : List String)
    (es : List (List String × String)) (q : List String) (h : fs.pathExists q = true) :
    (fs.extractTo base es).pathExists q = true := by
  induction es generalizing fs with
  | nil => exact h
  | cons e es2 ih =>
    exact ih _ (FS.pathExists_writeFile_of _ _ _ _ (FS.pathExists_mkdirp_of _ _ _ h))

theorem FS.lookup_extractTo_disjoint (fs : FS) (a b : List String)
    (ha : listIsPre a b = false) (hb : listIsPre b a = false)
    (es : List (List String × String)) (l : List String) :
    (fs.extractTo b es).lookup (a ++ l) = fs.lookup (a ++ l) := by
  induction es generalizing fs with
  | nil => rfl
  | cons e es2 ih =>
    have hstep : (((fs.mkdirp (b ++ e.1).dropLast).writeFile (b ++ e.1)
        (FileData.text e.2))).lookup (a ++ l) = fs.lookup (a ++ l) := by
      rw [FS.lookup_writeFile_ne _ _ _ _ (disjoint_paths a b ha hb l e.1)]
      apply FS.lookup_mkdirp_of_not_anc
      apply not_anc_of_disjoint a b l e.1 ha hb
      by_cases hnil : b ++ e.1 = []
      · exact ⟨[], by simp [hnil]⟩
      · exact ⟨[(b ++ e.1).getLast hnil], List.dropLast_append_getLast hnil⟩
    exact (ih _).trans hstep

theorem mem_anc_dropLast (base : List String) (d : String) (t : List String) (ht : t ≠ []) :
    base ++ [d] ∈ ancestors ((base ++ d :: t).dropLast) := by
  have hlen : (base ++ d :: t).length = base.length + t.length + 1 := by simp; omega
  have hlenD : ((base ++ d :: t).dropLast).length = base.length + t.length := by
    rw [List.length_dropLast, hlen]
    omega
  have htpos : 0 < t.length := List.length_pos.mpr ht
  rw [ancestors]
  apply List.mem_map.mpr
  refine ⟨base.length, ?_, ?_⟩
  · rw [List.mem_range, hlenD]; omega
  · rw [List.dropLast_eq_take, List.take_take]
    have hmin : min (base.length + 1) ((base ++ d :: t).length - 1) = base.length + 1 := by
      rw [hlen]; omega
    rw [hmin]
    have : (base ++ d :: t).take (base.length + 1) = base ++ (d :: t).take 1 :=
      List.take_append 1
    rw [this]
    simp

theorem pathExists_extractTo_of_entry (fs : FS) (base : List String)
    (es : List (List String × String)) (d : String)
    (h : ∃ e ∈ es, ∃ t, e.1 = d :: t ∧ t ≠ []) :
    (fs.extractTo base es).pathExists (base ++ [d]) = true := by
  induction es generalizing fs with
  | nil =>
    rcases h with ⟨e, he, -⟩
    simp at he
  | cons e es2 ih =>
    rcases h with ⟨f, hf, t, hft, htne⟩
    rw [FS.extractTo_cons]
    rcases List.mem_cons.mp hf with hfe | hfe2
    · apply FS.pathExists_extractTo_of
      apply FS.pathExists_writeFile_of
      apply FS.pathExists_mkdirp_of_mem
      rw [hfe] at hft
      rw [hft]
      exact mem_anc_dropLast base d t htne
    · exact ih _ ⟨f, hfe2, t, hft, htne⟩

theorem readFile_copyFold (ed : List String) (arch : String) (tgt : List String)
    (dlls : List String) (q : List String) (h : ∀ dll ∈ dlls, q ≠ tgt ++ [dll]) (fs : FS) :
    (dlls.foldl (fun f dll =>
      match f.readFile (ed ++ [arch, dll]) with
      | some d => f.writeFile (tgt ++ [dll]) d
      | none => f) fs).readFile q = fs.readFile q := by
  induction dlls generalizing fs with
  | nil => rfl
  | cons dll rest ih =>
    rw [List.foldl_cons]
    cases hr : fs.readFile (ed ++ [arch, dll]) with
    | none =>
      simp only [hr]
      exact ih (fun x hx => h x (by simp [hx])) _
    | some d =>
      simp only [hr]
      rw [ih (fun x hx => h x (by simp [hx])) _]
      exact FS.readFile_writeFile_ne _ _ _ _ (h dll (by simp))

theorem pathExists_copyFold_of (ed : List String) (arch : String) (tgt : List String)
    (dlls : List String) (fs : FS) (q : List String) (h : fs.pathExists q = true) :
    (dlls.foldl (fun f dll =>
      match f.readFile (ed ++ [arch, dll]) with
      | some d => f.writeFile (tgt ++ [dll]) d
      | none => f) fs).pathExists q = true := by
  induction dlls generalizing fs with
  | nil => exact h
  | cons dll rest ih =>
    rw [List.foldl_cons]
    cases hr : fs.readFile (ed ++ [arch, dll]) with
    | none => simp only [hr]; exact ih _ h
    | some d => simp only [hr]; exact ih _ (FS.pathExists_writeFile_of _ _ _ _ h)

theorem readFile_copyDlls_of_ne (fs : FS) (extD s32 w64 q : List String)
    (h1 : ∀ dll ∈ dxvkDlls, q ≠ s32 ++ [dll]) (h2 : ∀ dll ∈ dxvkDlls, q ≠ w64 ++ [dll]) :
    (copyDlls fs extD s32 w64).readFile q = fs.readFile q := by
  rw [copyDlls]
  split
  · split
    · rw [readFile_copyFold extD "x32" w64 dxvkDlls q h2 _,
        readFile_copyFold extD "x64" s32 dxvkDlls q h1 _]
    · rw [readFile_copyFold extD "x64" s32 dxvkDlls q h1 _]
  · split
    · rw [readFile_copyFold extD "x32" w64 dxvkDlls q h2 _]
    · rfl

theorem pathExists_copyDlls_of (fs : FS) (extD s32 w64 q : List String)
    (h : fs.pathExists q = true) :
    (copyDlls fs extD s32 w64).pathExists q = true := by
  rw [copyDlls]
  split
  · split
    · exact pathExists_copyFold_of _ _ _ _ _ _ (pathExists_copyFold_of _ _ _ _ _ _ h)
    · exact pathExists_copyFold_of _ _ _ _ _ _ h
  · split
    · exact pathExists_copyFold_of _ _ _ _ _ _ h
    · exact h

theorem setDllOverrides_eq_of_text (fs : FS) (pfx : List String) (dlls : List String)
    (c : String) (h : fs.readFile (pfx ++ ["user.reg"]) = some (FileData.text c)) :
    setDllOverrides fs pfx dlls
      = fs.writeFile (pfx ++ ["user.reg"]) (FileData.text (dlls.foldl overrideStep c)) := by
  rw [setDllOverrides, h]

theorem setDllOverrides_eq_of_not_text (fs : FS) (pfx : List String) (dlls : List String)
    (h : ∀ c, fs.readFile (pfx ++ ["user.reg"]) ≠ some (FileData.text c)) :
    setDllOverrides fs pfx dlls = fs := by
  rw [setDllOverrides]
  cases hr : fs.readFile (pfx ++ ["user.reg"]) with
  | none => rfl
  | some d =>
    cases d with
    | text c => exact absurd hr (h c)
    | metadata a b => rfl
    | archive a b => rfl

theorem pathExists_setDllOverrides_of (fs : FS) (pfx : List String) (dlls : List String)
    (q : List String) (h : fs.pathExists q = true) :
    (setDllOverrides fs pfx dlls).pathExists q = true := by
  rw [setDllOverrides]
  cases hr : fs.readFile (pfx ++ ["user.reg"]) with
  | none => exact h
  | some d =>
    cases d with
    | text c => exact FS.pathExists_writeFile_of _ _ _ _ h
    | metadata a b => exact h
    | archive a b => exact h

theorem append_singleton_ne (p : List String) (a b : String) (h : a ≠ b) :
    p ++ [a] ≠ p ++ [b] := by
  intro hc
  have h2 := List.append_cancel_left hc
  simp at h2
  exact h h2

/-! ## install_dxvk evaluation lemmas (C7) -/

/-- Warm-cache run: archive and extraction directory already cached — no
fetch, no extraction. -/
theorem install_dxvk_warm (net : FileData) (fs : FS) (pfx : List String) (v : String)
    (h1 : fs.pathExists pfx = true)
    (h2 : fs.pathExists (pfx ++ ["drive_c", "windows", "system32"]) = true)
    (h3 : (fs.mkdirp dxvkCacheDir).pathExists
        (dxvkCacheDir ++ ["dxvk-" ++ v ++ ".tar.gz"]) = true)
    (h4 : (fs.mkdirp dxvkCacheDir).pathExists (dxvkCacheDir ++ ["dxvk-" ++ v]) = true) :
    install_dxvk net fs pfx v =
      ((setDllOverrides (copyDlls (fs.mkdirp dxvkCacheDir) (dxvkCacheDir ++ ["dxvk-" ++ v])
          (pfx ++ ["drive_c", "windows", "system32"]) (pfx ++ ["drive_c", "windows", "syswow64"]))
          pfx dxvkDlls).writeFile (pfx ++ [".dxvk_installed"]) (FileData.text v),
       true, "DXVK " ++ v ++ " installed successfully") := by
  simp [install_dxvk, h1, h2, h3, h4]

/-- Cold-cache run for a known version: the archive is fetched into the
cache and extracted. -/
theorem install_dxvk_cold (net : FileData) (fs : FS) (pfx : List String) (v : String)
    (es : List (List String × String))
    (h1 : fs.pathExists pfx = true)
    (h2 : fs.pathExists (pfx ++ ["drive_c", "windows", "system32"]) = true)
    (h3 : (fs.mkdirp dxvkCacheDir).pathExists
        (dxvkCacheDir ++ ["dxvk-" ++ v ++ ".tar.gz"]) = false)
    (hvn : ¬ dxvkUrlOf v = none)
    (h4 : ((fs.mkdirp dxvkCacheDir).writeFile (dxvkCacheDir ++ ["dxvk-" ++ v ++ ".tar.gz"])
        net).pathExists (dxvkCacheDir ++ ["dxvk-" ++ v]) = false)
    (hnet : net = FileData.archive es false) :
    install_dxvk net fs pfx v =
      ((setDllOverrides (copyDlls
          (((fs.mkdirp dxvkCacheDir).writeFile (dxvkCacheDir ++ ["dxvk-" ++ v ++ ".tar.gz"])
            net).extractTo dxvkCacheDir es)
          (dxvkCacheDir ++ ["dxvk-" ++ v])
          (pfx ++ ["drive_c", "windows", "system32"]) (pfx ++ ["drive_c", "windows", "syswow64"]))
          pfx dxvkDlls).writeFile (pfx ++ [".dxvk_installed"]) (FileData.text v),
       true, "DXVK " ++ v ++ " installed successfully") := by
  subst hnet
  simp [install_dxvk, h1, h2, h3, hvn, h4, FS.readFile_writeFile_self]

theorem foldl_mkdirOne_eq_self (ds : List (List String)) (fs : FS)
    (h : ∀ q ∈ ds, fs.pathExists q = true) : ds.foldl FS.mkdirOne fs = fs := by
  induction ds with
  | nil => rfl
  | cons d ds2 ih =>
    have hd : fs.mkdirOne d = fs := by
      rw [FS.mkdirOne, if_pos]
      exact h d (by simp)
    rw [List.foldl_cons, hd]
    exact ih (fun q hq => h q (by simp [hq]))

theorem FS.mkdirp_eq_self (fs : FS) (p : List String)
    (h : ∀ q ∈ ancestors p, fs.pathExists q = true) : fs.mkdirp p = fs :=
  foldl_mkdirOne_eq_self (ancestors p) fs h

/-! ## Claim C7 (install_dxvk idempotence) -/

/-- C7: from a valid prefix and a cold cache, installing a known DXVK
version twice with the same arguments is idempotent: the first call
succeeds, the second call succeeds, the installed-marker afterwards holds
exactly the single version string (the marker is rewritten, not appended),
and the DLL-override configuration (`user.reg`) is unchanged by the second
call — no duplicate override entries appear.  Hypotheses: the prefix has
the expected structure, the cache holds neither the archive nor the
extraction directory yet, the version is known, and the network delivers an
intact archive whose members live under the standard `dxvk-<version>/` top
directory. -/
theorem install_dxvk_idempotent (net : FileData) (fs : FS) (pfx : List String) (v : String)
    (es : List (List String × String))
    (hpfx : fs.pathExists pfx = true)
    (hsys : fs.pathExists (pfx ++ ["drive_c", "windows", "system32"]) = true)
    (htar : fs.pathExists (dxvkCacheDir ++ ["dxvk-" ++ v ++ ".tar.gz"]) = false)
    (hnoext : fs.pathExists (dxvkCacheDir ++ ["dxvk-" ++ v]) = false)
    (hver : ¬ dxvkUrlOf v = none)
    (hnet : net = FileData.archive es false)
    (hentry : ∃ e ∈ es, ∃ t, e.1 = ("dxvk-" ++ v) :: t ∧ t ≠ []) :
    (install_dxvk net fs pfx v).2.1 = true
    ∧ (install_dxvk net (install_dxvk net fs pfx v).1 pfx v).2.1 = true
    ∧ (install_dxvk net (install_dxvk net fs pfx v).1 pfx v).1.readFile
        (pfx ++ [".dxvk_installed"]) = some (FileData.text v)
    ∧ (install_dxvk net (install_dxvk net fs pfx v).1 pfx v).1.readFile (pfx ++ ["user.reg"])
      = (install_dxvk net fs pfx v).1.readFile (pfx ++ ["user.reg"]) := by
  have hsne : ("dxvk-" ++ v) ≠ ("dxvk-" ++ v ++ ".tar.gz") := by
    intro hc
    have hl := congrArg String.length hc
    simp [String.length_append] at hl
    exact absurd hl (by decide)
  have hneqET : (dxvkCacheDir ++ ["dxvk-" ++ v])
      ≠ (dxvkCacheDir ++ ["dxvk-" ++ v ++ ".tar.gz"]) :=
    append_singleton_ne dxvkCacheDir _ _ hsne
  have h3 : (fs.mkdirp dxvkCacheDir).pathExists
      (dxvkCacheDir ++ ["dxvk-" ++ v ++ ".tar.gz"]) = false := by
    rw [FS.pathExists, FS.lookup_mkdirp_of_longer _ _ _ (by simp)]
    rw [FS.pathExists] at htar
    exact htar
  have h4 : ((fs.mkdirp dxvkCacheDir).writeFile
        (dxvkCacheDir ++ ["dxvk-" ++ v ++ ".tar.gz"]) net).pathExists
      (dxvkCacheDir ++ ["dxvk-" ++ v]) = false := by
    rw [FS.pathExists, FS.lookup_writeFile_ne _ _ _ _ hneqET,
      FS.lookup_mkdirp_of_longer _ _ _ (by simp)]
    rw [FS.pathExists] at hnoext
    exact hnoext
  have hcall1 := install_dxvk_cold net fs pfx v es hpfx hsys h3 hver h4 hnet
  set FW : FS := (fs.mkdirp dxvkCacheDir).writeFile
      (dxvkCacheDir ++ ["dxvk-" ++ v ++ ".tar.gz"]) net with hFW
  set FE : FS := FW.extractTo dxvkCacheDir es with hFE
  set G0 : FS := copyDlls FE (dxvkCacheDir ++ ["dxvk-" ++ v])
      (pfx ++ ["drive_c", "windows", "system32"])
      (pfx ++ ["drive_c", "windows", "syswow64"]) with hG0
  set S0 : FS := setDllOverrides G0 pfx dxvkDlls with hS0
  set F6 : FS := S0.writeFile (pfx ++ [".dxvk_installed"]) (FileData.text v) with hF6
  have hmonoFE : ∀ q : List String, FE.pathExists q = true → F6.pathExists q = true := by
    intro q hq
    rw [hF6]
    apply FS.pathExists_writeFile_of
    rw [hS0]
    apply pathExists_setDllOverrides_of
    rw [hG0]
    apply pathExists_copyDlls_of
    exact hq
  have hmonoFW : ∀ q : List String, FW.pathExists q = true → F6.pathExists q = true := by
    intro q hq
    apply hmonoFE
    rw [hFE]
    exact FS.pathExists_extractTo_of _ _ _ _ hq
  have hmonoFS : ∀ q : List String, fs.pathExists q = true → F6.pathExists q = true := by
    intro q hq
    apply hmonoFW
    rw [hFW]
    exact FS.pathExists_writeFile_of _ _ _ _ (FS.pathExists_mkdirp_of _ _ _ hq)
  have A1 : F6.pathExists pfx = true := hmonoFS pfx hpfx
  have A2 : F6.pathExists (pfx ++ ["drive_c", "windows", "system32"]) = true := hmonoFS _ hsys
  have A4 : F6.pathExists (dxvkCacheDir ++ ["dxvk-" ++ v ++ ".tar.gz"]) = true := by
    apply hmonoFW
    rw [hFW]
    exact FS.pathExists_of_readFile _ _ _ (FS.readFile_writeFile_self _ _ _)
  have A5 : F6.pathExists (dxvkCacheDir ++ ["dxvk-" ++ v]) = true := by
    apply hmonoFE
    rw [hFE]
    exact pathExists_extractTo_of_entry _ _ _ _ hentry
  have A3 : F6.mkdirp dxvkCacheDir = F6 := by
    apply FS.mkdirp_eq_self
    intro q hqm
    apply hmonoFW
    rw [hFW]
    exact FS.pathExists_writeFile_of _ _ _ _ (FS.pathExists_mkdirp_of_mem _ _ _ hqm)
  have hcall2 := install_dxvk_warm net F6 pfx v A1 A2
    (by rw [A3]; exact A4) (by rw [A3]; exact A5)
  rw [A3] at hcall2
  set G1 : FS := copyDlls F6 (dxvkCacheDir ++ ["dxvk-" ++ v])
      (pfx ++ ["drive_c", "windows", "system32"])
      (pfx ++ ["drive_c", "windows", "syswow64"]) with hG1
  have hneqRM : pfx ++ ["user.reg"] ≠ pfx ++ [".dxvk_installed"] :=
    append_singleton_ne pfx _ _ (by decide)
  have hregS : ∀ dll ∈ dxvkDlls,
      pfx ++ ["user.reg"] ≠ (pfx ++ ["drive_c", "windows", "system32"]) ++ [dll] := by
    intro dll hdll hc
    rw [List.append_assoc] at hc
    have h5 := List.append_cancel_left hc
    have h6 := congrArg List.length h5
    simp at h6
  have hregW : ∀ dll ∈ dxvkDlls,
      pfx ++ ["user.reg"] ≠ (pfx ++ ["drive_c", "windows", "syswow64"]) ++ [dll] := by
    intro dll hdll hc
    rw [List.append_assoc] at hc
    have h5 := List.append_cancel_left hc
    have h6 := congrArg List.length h5
    simp at h6
  have hG1reg : G1.readFile (pfx ++ ["user.reg"]) = F6.readFile (pfx ++ ["user.reg"]) := by
    rw [hG1]
    exact readFile_copyDlls_of_ne _ _ _ _ _ hregS hregW
  have hF6reg : F6.readFile (pfx ++ ["user.reg"])
      = (setDllOverrides G0 pfx dxvkDlls).readFile (pfx ++ ["user.reg"]) := by
    rw [hF6, hS0]
    exact FS.readFile_writeFile_ne _ _ _ _ hneqRM
  refine ⟨by rw [hcall1], ?_, ?_, ?_⟩
  · rw [hcall1]
    show (install_dxvk net F6 pfx v).2.1 = true
    rw [hcall2]
  · rw [hcall1]
    show (install_dxvk net F6 pfx v).1.readFile (pfx ++ [".dxvk_installed"])
      = some (FileData.text v)
    rw [hcall2]
    exact FS.readFile_writeFile_self _ _ _
  · rw [hcall1]
    show (install_dxvk net F6 pfx v).1.readFile (pfx ++ ["user.reg"])
      = F6.readFile (pfx ++ ["user.reg"])
    rw [hcall2]
    show ((setDllOverrides G1 pfx dxvkDlls).writeFile (pfx ++ [".dxvk_installed"])
        (FileData.text v)).readFile (pfx ++ ["user.reg"]) = F6.readFile (pfx ++ ["user.reg"])
    rw [FS.readFile_writeFile_ne _ _ _ _ hneqRM]
    by_cases htext : ∃ c, G0.readFile (pfx ++ ["user.reg"]) = some (FileData.text c)
    · rcases htext with ⟨c, hc⟩
      have hS0eq : setDllOverrides G0 pfx dxvkDlls
          = G0.writeFile (pfx ++ ["user.reg"])
              (FileData.text (dxvkDlls.foldl overrideStep c)) :=
        setDllOverrides_eq_of_text _ _ _ _ hc
      have hF6v : F6.readFile (pfx ++ ["user.reg"])
          = some (FileData.text (dxvkDlls.foldl overrideStep c)) := by
        rw [hF6reg, hS0eq]
        exact FS.readFile_writeFile_self _ _ _
      have hG1v : G1.readFile (pfx ++ ["user.reg"])
          = some (FileData.text (dxvkDlls.foldl overrideStep c)) := by
        rw [hG1reg]
        exact hF6v
      have hfold : dxvkDlls.foldl overrideStep (dxvkDlls.foldl overrideStep c)
          = dxvkDlls.foldl overrideStep c :=
        foldl_overrideStep_noop _ _
          (fun dll hdll => strContains_foldl_overrideStep _ _ _ hdll)
      rw [setDllOverrides_eq_of_text _ _ _ _ hG1v]
      rw [FS.readFile_writeFile_self _ _ _, hfold, hF6v]
    · have hnt : ∀ c, G0.readFile (pfx ++ ["user.reg"]) ≠ some (FileData.text c) := by
        intro c hc
        exact htext ⟨c, hc⟩
      have hS0eq : setDllOverrides G0 pfx dxvkDlls = G0 :=
        setDllOverrides_eq_of_not_text _ _ _ hnt
      have hF6v : F6.readFile (pfx ++ ["user.reg"]) = G0.readFile (pfx ++ ["user.reg"]) := by
        rw [hF6reg, hS0eq]
      have hnt2 : ∀ c, G1.readFile (pfx ++ ["user.reg"]) ≠ some (FileData.text c) := by
        intro c hc
        rw [hG1reg, hF6v] at hc
        exact hnt c hc
      rw [setDllOverrides_eq_of_not_text _ _ _ hnt2]
      exact hG1reg

/-- Witness for `install_dxvk_idempotent` at a concrete input: a minimal
valid prefix, an empty `user.reg`, a cold cache, version 2.3.1 and a
one-member archive. -/
theorem install_dxvk_idempotent_witness :
    ((FS.empty.mkdirp (["p"] ++ ["drive_c", "windows", "system32"])).writeFile
        (["p"] ++ ["user.reg"]) (FileData.text "")).pathExists ["p"] = true
    ∧ (install_dxvk (FileData.archive [(["dxvk-2.3.1", "x64", "d3d9.dll"], "blob")] false)
        ((FS.empty.mkdirp (["p"] ++ ["drive_c", "windows", "system32"])).writeFile
          (["p"] ++ ["user.reg"]) (FileData.text ""))
        ["p"] "2.3.1").2.1 = true
    ∧ (install_dxvk (FileData.archive [(["dxvk-2.3.1", "x64", "d3d9.dll"], "blob")] false)
        (install_dxvk (FileData.archive [(["dxvk-2.3.1", "x64", "d3d9.dll"], "blob")] false)
          ((FS.empty.mkdirp (["p"] ++ ["drive_c", "windows", "system32"])).writeFile
            (["p"] ++ ["user.reg"]) (FileData.text ""))
          ["p"] "2.3.1").1
        ["p"] "2.3.1").2.1 = true
    ∧ (install_dxvk (FileData.archive [(["dxvk-2.3.1", "x64", "d3d9.dll"], "blob")] false)
        (install_dxvk (FileData.archive [(["dxvk-2.3.1", "x64", "d3d9.dll"], "blob")] false)
          ((FS.empty.mkdirp (["p"] ++ ["drive_c", "windows", "system32"])).writeFile
            (["p"] ++ ["user.reg"]) (FileData.text ""))
          ["p"] "2.3.1").1
        ["p"] "2.3.1").1.readFile (["p"] ++ [".dxvk_installed"])
      = some (FileData.text "2.3.1")
    ∧ (install_dxvk (FileData.archive [(["dxvk-2.3.1", "x64", "d3d9.dll"], "blob")] false)
        (install_dxvk (FileData.archive [(["dxvk-2.3.1", "x64", "d3d9.dll"], "blob")] false)
          ((FS.empty.mkdirp (["p"] ++ ["drive_c", "windows", "system32"])).writeFile
            (["p"] ++ ["user.reg"]) (FileData.text ""))
          ["p"] "2.3.1").1
        ["p"] "2.3.1").1.readFile (["p"] ++ ["user.reg"])
      = (install_dxvk (FileData.archive [(["dxvk-2.3.1", "x64", "d3d9.dll"], "blob")] false)
          ((FS.empty.mkdirp (["p"] ++ ["drive_c", "windows", "system32"])).writeFile
            (["p"] ++ ["user.reg"]) (FileData.text ""))
          ["p"] "2.3.1").1.readFile (["p"] ++ ["user.reg"]) := by
  have h := install_dxvk_idempotent
    (FileData.archive [(["dxvk-2.3.1", "x64", "d3d9.dll"], "blob")] false)
    ((FS.empty.mkdirp (["p"] ++ ["drive_c", "windows", "system32"])).writeFile
      (["p"] ++ ["user.reg"]) (FileData.text ""))
    ["p"] "2.3.1" [(["dxvk-2.3.1", "x64", "d3d9.dll"], "blob")]
    (by decide) (by decide) (by decide) (by decide) (by decide) rfl
    ⟨(["dxvk-2.3.1", "x64", "d3d9.dll"], "blob"), by decide,
     ["x64", "d3d9.dll"], rfl, by decide⟩
  exact ⟨by decide, h.1, h.2.1, h.2.2.1, h.2.2.2⟩
